import Mathlib

/-!
Verification development for the github-repo-analyzer backend.

The Python sources under `backend/` are shallowly embedded:

* Python dicts are ordered association lists (`List (String × _)`); insertion
  order is preserved, and updating an existing key keeps its position, exactly
  as CPython dicts do.
* `time.time()` is an explicit `now : Int` parameter (integral time units);
  every function that reads the clock takes it as an argument.
* JSON values flowing through reports are the inductive `Val`; Python
  truthiness is `Val.truthy`.
* Fallible Python code returns `Except PyErr _`; an uncaught exception is the
  `.error` constructor.  `_make_request`-style degraded responses
  (the `\x7b"error": ..., "partial": True\x7d` dicts) are the `Fetched.errorDict`
  constructor, distinct from a raised exception.
* Numeric ratios computed with Python floats are embedded as `ℚ`; `round(x, k)`
  is rounding of the exact rational (Python rounds the nearest binary double
  half-to-even, which can differ only at exact decimal midpoints, none of
  which matter for the properties proved here).
-/

abbrev PyErr := String

/-- JSON-ish Python value as stored in analysis reports. -/
inductive Val where
  | str (s : String)
  | int (n : Int)
  | rat (q : ℚ)
  | bool (b : Bool)
  | none
  | list (xs : List Val)
  | dict (xs : List (String × Val))

/-- Python dict with `String` keys and report values. -/
abbrev Dict := List (String × Val)

/-- Python truthiness for `Val`. -/
def Val.truthy : Val → Bool
  | .str s => !(s.isEmpty)
  | .int n => decide (n ≠ 0)
  | .rat q => decide (q ≠ 0)
  | .bool b => b
  | .none => false
  | .list xs => !(xs.isEmpty)
  | .dict xs => !(xs.isEmpty)

/-- `d[k]` lookup in an ordered association list (first matching key). -/
def alGet {α : Type} : List (String × α) → String → Option α
  | [], _ => Option.none
  | (k, v) :: rest, key => if k = key then some v else alGet rest key

/-- `d[k] = v`: update in place if the key exists (CPython dicts keep the
original position), append otherwise. -/
def alSet {α : Type} : List (String × α) → String → α → List (String × α)
  | [], key, v => [(key, v)]
  | (k, w) :: rest, key, v =>
    if k = key then (key, v) :: rest else (k, w) :: alSet rest key v

/-- `del d[k]`: drop the entry with the given key. -/
def alDel {α : Type} : List (String × α) → String → List (String × α)
  | [], _ => []
  | (k, w) :: rest, key => if k = key then alDel rest key else (k, w) :: alDel rest key

/-- Keys of a dict, in order. -/
def alKeys {α : Type} (d : List (String × α)) : List String := d.map Prod.fst

/-- Shorthand for lookups on report dicts. -/
def dGet (d : Dict) (k : String) : Option Val := alGet d k

/-- Shorthand for updates on report dicts. -/
def dSet (d : Dict) (k : String) (v : Val) : Dict := alSet d k v

/-! ### String helpers mirroring Python primitives -/

/-- Python `pat in s` (substring containment). -/
def strContains (s pat : String) : Bool := decide (pat.toList <:+: s.toList)

/-- Python `s.lower()`: per-character lowering (kept definitionally
transparent over the character list). -/
def pyLower (s : String) : String := String.mk (s.toList.map Char.toLower)

/-- Python `s.strip('/')`. -/
def stripSlashes (s : String) : String :=
  let l := s.toList.dropWhile (fun c => c = '/')
  String.mk (l.reverse.dropWhile (fun c => c = '/') |>.reverse)

/-- Python `round(x, 1)` on an exact rational. -/
def round1 (q : ℚ) : ℚ := (round (q * 10) : ℤ) / 10

/-- Python `round(x, 2)` on an exact rational. -/
def round2 (q : ℚ) : ℚ := (round (q * 100) : ℤ) / 100

/-- Rendering of a rational for f-string interpolation.  The exact text of a
formatted float does not matter for any property proved below; this rendering
is injective enough to stand for Python's. -/
def fmtRat (q : ℚ) : String := toString q

/-- Mean of a list of rationals (`statistics.mean`; callers guard nonemptiness). -/
def ratMean (l : List ℚ) : ℚ := l.sum / (l.length : ℚ)

/-- `collections.Counter` built over a list: counts keyed in first-occurrence
order, as CPython's insertion-ordered dict does. -/
def counterAdd {α : Type} [DecidableEq α] :
    List (α × Nat) → α → List (α × Nat)
  | [], a => [(a, 1)]
  | (k, n) :: rest, a =>
    if k = a then (k, n + 1) :: rest else (k, n) :: counterAdd rest a

/-- Counter over a list of items. -/
def counter {α : Type} [DecidableEq α] (l : List α) : List (α × Nat) :=
  l.foldl counterAdd []

/-- Stable insertion used by `mostCommon`: an element moves ahead only of
entries with a strictly smaller count, so equal counts keep first-seen order,
matching `Counter.most_common`. -/
def mcInsert {α : Type} (p : α × Nat) : List (α × Nat) → List (α × Nat)
  | [] => [p]
  | q :: rest => if q.2 ≥ p.2 then q :: mcInsert p rest else p :: q :: rest

/-- `Counter.most_common(k)`: stable descending sort by count, first `k`. -/
def mostCommon {α : Type} (l : List (α × Nat)) (k : Nat) : List (α × Nat) :=
  (l.foldl (fun acc p => mcInsert p acc) []).take k

/-- Deduplicate keeping first occurrences (models building a `set` and reading
it back; CPython set iteration order is unspecified, which no proved property
depends on). -/
def dedupFirst {α : Type} [DecidableEq α] (l : List α) : List α :=
  l.foldl (fun acc a => if a ∈ acc then acc else acc ++ [a]) []

/-- Insertion step of `sorted` on strings. -/
def sortedInsert (a : String) : List String → List String
  | [] => [a]
  | b :: l => if a < b then a :: b :: l else b :: sortedInsert a l

/-- Python `sorted` on a list of strings. -/
def sortedStrings (l : List String) : List String :=
  l.foldl (fun acc a => sortedInsert a acc) []

/-! ### Cache Engine (`backend/cache.py`) -/

/-- One cache slot: `\x7b'value': ..., 'expires_at': ..., 'created_at': ...\x7d`. -/
structure CacheEntry where
  value : Val
  expires_at : Int
  created_at : Int

/-- `RepositoryCache`: thread-safe in-memory cache with TTL support.  The lock
serialises operations, so the embedding is the sequential semantics. -/
structure RepositoryCache where
  cache : List (String × CacheEntry)
  access_times : List (String × Int)
  max_size : Nat
  default_ttl : Int
  hits : Nat
  misses : Nat

/-- A fresh `RepositoryCache(max_size, default_ttl)`. -/
def RepositoryCache.init (max_size : Nat) (default_ttl : Int) : RepositoryCache :=
  { cache := [], access_times := [], max_size := max_size,
    default_ttl := default_ttl, hits := 0, misses := 0 }

/-- Scan for `min(access_times, key=access_times.get)`: the first key (in dict
iteration order) holding the minimal access time, as Python's `min` does. -/
def findOldest (k : String) (t : Int) : List (String × Int) → String
  | [] => k
  | (k', t') :: rest => if t' < t then findOldest k' t' rest else findOldest k t rest

/-- `RepositoryCache._evict_oldest`: evict the least recently accessed entry. -/
def RepositoryCache.evict_oldest (c : RepositoryCache) : RepositoryCache :=
  match c.access_times with
  | [] => c
  | (k, t) :: rest =>
    let oldest := findOldest k t rest
    { c with cache := alDel c.cache oldest, access_times := alDel c.access_times oldest }

/-- `RepositoryCache.get`: value (if present and unexpired) and updated cache
state.  An expired entry is deleted as a side effect; a hit refreshes the
access time and bumps `hits`; any miss bumps `misses`. -/
def RepositoryCache.get (c : RepositoryCache) (now : Int) (key : String) :
    Option Val × RepositoryCache :=
  match alGet c.cache key with
  | some entry =>
    if now < entry.expires_at then
      (some entry.value,
        { c with hits := c.hits + 1, access_times := alSet c.access_times key now })
    else
      (Option.none,
        { c with cache := alDel c.cache key,
                 access_times := alDel c.access_times key,
                 misses := c.misses + 1 })
  | Option.none => (Option.none, { c with misses := c.misses + 1 })

/-- `RepositoryCache.set`: evict first when already at capacity, then store
with `expires_at = now + (ttl or default_ttl)` (`or`, so an explicit `ttl=0`
falls back to the default, exactly as the Python `ttl or self.default_ttl`). -/
def RepositoryCache.set (c : RepositoryCache) (now : Int) (key : String)
    (value : Val) (ttl : Option Int) : RepositoryCache :=
  let c := if c.cache.length ≥ c.max_size then c.evict_oldest else c
  let t : Int :=
    match ttl with
    | some v => if v = 0 then c.default_ttl else v
    | Option.none => c.default_ttl
  { c with
    cache := alSet c.cache key { value := value, expires_at := now + t, created_at := now },
    access_times := alSet c.access_times key now }

/-- `RepositoryCache.clear`. -/
def RepositoryCache.clear (c : RepositoryCache) : RepositoryCache :=
  { c with cache := [], access_times := [], hits := 0, misses := 0 }

/-- `cache_repository_analysis(owner, repo, data)`: store the full report for
30 minutes (1800 time units). -/
def cache_repository_analysis (c : RepositoryCache) (now : Int)
    (owner repo : String) (analysis_data : Val) : RepositoryCache :=
  c.set now ("analysis:" ++ owner ++ "/" ++ repo) analysis_data (some 1800)

/-- `get_cached_analysis(owner, repo)`. -/
def get_cached_analysis (c : RepositoryCache) (now : Int) (owner repo : String) :
    Option Val × RepositoryCache :=
  c.get now ("analysis:" ++ owner ++ "/" ++ repo)

/-! ### Degraded provider responses and typed raw data

`GitHubAnalyzer._make_request` never raises: timeouts/request failures are
converted to `\x7b"error": ..., "partial": True\x7d` dicts.  A list-returning
endpoint therefore yields either a well-formed list or such an error dict,
which is the `Fetched` sum below.  Well-formed payloads are typed records
carrying exactly the fields the analyzers read. -/

inductive Fetched (α : Type) where
  | ok (a : α)
  | errorDict (msg : String)

/-- One entry of `commits`: the fields read by the processor
(`commit.commit.author.date` as an epoch, `commit.commit.author.name`,
`commit.commit.message`, and the optional top-level `author.login`). -/
structure Commit where
  date : Int
  author_name : String
  message : String
  author_login : Option String
  deriving DecidableEq

/-- One entry of `issues`: `pull_request` is the presence of that key. -/
structure Issue where
  state : String
  pull_request : Bool
  created_at : Int
  closed_at : Option Int
  updated_at : Int
  deriving DecidableEq

/-- One entry of `pull_requests`. -/
structure Pull where
  state : String
  created_at : Int
  merged_at : Option Int
  deriving DecidableEq

/-- One entry of `workflow_runs`. -/
structure Workflow where
  name : Option String
  status : String
  conclusion : Option String
  updated_at : Option Int
  deriving DecidableEq

/-- Parsed `package.json`.  `get_package_json` returns `None` on any failure;
a falsy (empty) parse is also modelled as `Option.none` since every use is
guarded by Python truthiness.  `dependencies`/`devDependencies` are `Option`
because `analyze_dependencies_detailed` tests key membership. -/
structure PackageJson where
  scripts : List (String × String)
  dependencies : Option (List (String × String))
  devDependencies : Option (List (String × String))
  deriving DecidableEq

/-- `repos/.../git/trees/...?recursive=1` items. -/
structure TreeItem where
  path : String
  type : String
  deriving DecidableEq

/-! ### Timeout Guard (`backend/optimized_analyzer.py`, `timeout_decorator`) -/

/-- Outcome of the decorated unit of work relative to the budget.  Real-time
scheduling is not statable in a shallow embedding, so whether the worker
thread finished before `thread.join(seconds)` returned is an oracle:
`completed v` - the target ran to completion storing `result[0] = v`;
`raised msg` - the target raised and `exception[0]` was recorded;
`timedOut` - the budget elapsed with the thread still alive. -/
inductive WorkOutcome where
  | completed (v : Val)
  | raised (msg : String)
  | timedOut

/-- `timeout_decorator(seconds)` applied to a unit of work with the given
outcome.  All branches return a value: the wrapper itself never raises. -/
def timeout_decorator (seconds : Nat) (outcome : WorkOutcome) : Val :=
  match outcome with
  | .timedOut =>
    Val.dict [("error", Val.str s!"Analysis timeout after {seconds} seconds"),
              ("partial", Val.bool true)]
  | .raised msg =>
    Val.dict [("error", Val.str msg), ("partial", Val.bool true)]
  | .completed v => v

/-! ### Deep analyzer (`backend/deep_analyzer.py`) -/

/-- Result record of `analyze_file_tree`. -/
structure TreeAnalysis where
  total_files : Nat
  total_dirs : Nat
  file_types : List (String × Nat)
  directory_structure : List (String × List String)
  config_files : List String
  test_files : List String
  doc_files : List String
  max_depth : Nat
  deriving DecidableEq

/-- `DeepAnalyzer._default_tree_analysis`. -/
def default_tree_analysis : TreeAnalysis :=
  { total_files := 0, total_dirs := 0, file_types := [], directory_structure := [],
    config_files := [], test_files := [], doc_files := [], max_depth := 0 }

/-- Exact basenames treated as config files by the tree walk. -/
def configBasenames : List String :=
  ["package.json", "requirements.txt", "Gemfile", "Cargo.toml", "go.mod",
   "pom.xml", ".env.example", "Dockerfile", "docker-compose.yml",
   ".github/workflows"]

/-- Body of the `for item in files` loop of `analyze_file_tree`. -/
def treeStep (a : TreeAnalysis) (item : TreeItem) : TreeAnalysis :=
  if item.type = "blob" then
    let path := item.path
    let a := { a with total_files := a.total_files + 1 }
    let a :=
      if strContains path "." then
        let ext := pyLower ((path.splitOn ".").getLastD "")
        { a with file_types := counterAdd a.file_types ext }
      else a
    let lower := pyLower path
    let a :=
      if ["test", "spec", "__test__"].any (fun t => strContains lower t) then
        { a with test_files := a.test_files ++ [path] }
      else a
    let a :=
      if ["readme", "doc", "license", "contributing"].any (fun t => strContains lower t) then
        { a with doc_files := a.doc_files ++ [path] }
      else a
    let a :=
      if ((path.splitOn "/").getLastD "") ∈ configBasenames then
        { a with config_files := a.config_files ++ [path] }
      else a
    let parts := path.splitOn "/"
    let depth := parts.length - 1
    let a := { a with max_depth := max a.max_depth depth }
    if depth > 0 then
      let dir_path := String.intercalate "/" parts.dropLast
      let fname := parts.getLastD ""
      let ds := alSet a.directory_structure dir_path
        ((alGet a.directory_structure dir_path).getD [] ++ [fname])
      { a with directory_structure := ds }
    else a
  else if item.type = "tree" then
    { a with total_dirs := a.total_dirs + 1 }
  else a

/-- `DeepAnalyzer.analyze_file_tree`: on a degraded tree response (no `"tree"`
key) or any caught exception the default analysis is returned; otherwise the
single-pass classification above.  The function never raises. -/
def analyze_file_tree (tree_resp : Fetched (List TreeItem)) : TreeAnalysis :=
  match tree_resp with
  | .errorDict _ => default_tree_analysis
  | .ok files => files.foldl treeStep default_tree_analysis

/-- `DeepAnalyzer.detect_architecture_pattern`, translated if-chain. -/
def detect_architecture_pattern (t : TreeAnalysis) : String :=
  let dirs := alKeys t.directory_structure
  if dirs.any (fun d => strContains (pyLower d) "controller") &&
     dirs.any (fun d => strContains (pyLower d) "model") &&
     dirs.any (fun d => strContains (pyLower d) "view") then
    "MVC (Model-View-Controller)"
  else if dirs.any (fun d => strContains (pyLower d) "services") ||
          (dirs.filter (fun d => strContains (pyLower d) "service")).length > 2 then
    "Microservices Architecture"
  else if dirs.any (fun d => strContains (pyLower d) "domain") &&
          dirs.any (fun d => strContains (pyLower d) "infrastructure") then
    "Domain-Driven Design (DDD)"
  else if dirs.any (fun d => strContains (pyLower d) "components") ||
          dirs.any (fun d => strContains d "src/components") then
    "Component-Based Architecture"
  else if dirs.any (fun d => strContains (pyLower d) "api") &&
          (t.config_files.any (fun f =>
            strContains (pyLower f) "swagger" || strContains (pyLower f) "openapi")) then
    "API-First Architecture"
  else if t.max_depth < 3 && t.total_dirs < 10 then
    "Monolithic Architecture"
  else if dirs.any (fun d => strContains (pyLower d) "modules") ||
          dirs.any (fun d => strContains (pyLower d) "packages") then
    "Modular Architecture"
  else
    "Standard Project Structure"

/-- First-match evaluation of an ordered rule list (used to state the
spec-side tie-break policy of the architecture detector). -/
def firstMatch : List (Bool × String) → String → String
  | [], fallback => fallback
  | (cond, label) :: rest, fallback =>
    if cond then label else firstMatch rest fallback

/-- Modelled from the spec (section 4.4): the architecture-pattern rules as an
ordered list, first satisfied rule wins, no scoring.  Rule conditions are
written from the spec's words: MVC if controller+model+view directories all
present; Microservices if a `services` directory exists or more than two
directories contain "service"; DDD if `domain` and `infrastructure` both
present; Component-Based if a `components` directory exists; API-First if an
`api` directory exists alongside an OpenAPI/Swagger config file; Monolithic if
depth < 3 and directory count < 10; Modular if `modules` or `packages`
present; otherwise the generic fallback label. -/
def architectureRulesSpec (t : TreeAnalysis) : String :=
  let dirs := alKeys t.directory_structure
  firstMatch
    [(dirs.any (fun d => strContains (pyLower d) "controller") &&
      dirs.any (fun d => strContains (pyLower d) "model") &&
      dirs.any (fun d => strContains (pyLower d) "view"), "MVC (Model-View-Controller)"),
     (dirs.any (fun d => strContains (pyLower d) "services") ||
      (dirs.filter (fun d => strContains (pyLower d) "service")).length > 2,
      "Microservices Architecture"),
     (dirs.any (fun d => strContains (pyLower d) "domain") &&
      dirs.any (fun d => strContains (pyLower d) "infrastructure"),
      "Domain-Driven Design (DDD)"),
     (dirs.any (fun d => strContains (pyLower d) "components"),
      "Component-Based Architecture"),
     (dirs.any (fun d => strContains (pyLower d) "api") &&
      t.config_files.any (fun f =>
        strContains (pyLower f) "swagger" || strContains (pyLower f) "openapi"),
      "API-First Architecture"),
     (t.max_depth < 3 && t.total_dirs < 10, "Monolithic Architecture"),
     (dirs.any (fun d => strContains (pyLower d) "modules") ||
      dirs.any (fun d => strContains (pyLower d) "packages"),
      "Modular Architecture")]
    "Standard Project Structure"

/-- Result record of `analyze_dependencies_detailed`. -/
structure DepsAnalysis where
  total_count : Nat
  direct_dependencies : List (String × List (String × String))
  dev_dependencies : List (String × List (String × String))
  outdated_check : List String
  security_warnings : List String
  package_managers : List String
  deriving DecidableEq

/-- Parse one line of `requirements.txt` into the accumulating
`(python_deps, outdated_check)` pair, as the Python loop does. -/
def requirementsLine (acc : List (String × String) × List String) (line : String) :
    List (String × String) × List String :=
  let line := line.trim
  if !line.isEmpty && !line.startsWith "#" then
    if strContains line "==" then
      let name := (line.splitOn "==").headD ""
      let version := String.intercalate "==" (line.splitOn "==").tail
      (alSet acc.1 name.trim version.trim, acc.2)
    else if strContains line ">=" || strContains line "<=" then
      (acc.1, acc.2 ++ [line ++ ": using flexible versioning"])
    else
      (alSet acc.1 line "*", acc.2)
  else acc

/-- The five extra manifests probed via the contents endpoint. -/
def extraManifests : List (String × String) :=
  [("Gemfile", "bundler"), ("Cargo.toml", "cargo"), ("go.mod", "go modules"),
   ("pom.xml", "maven"), ("build.gradle", "gradle")]

/-- `DeepAnalyzer.analyze_dependencies_detailed`.  `probe f = true` models the
contents request for manifest `f` returning a truthy payload without an
`"error"` key; degraded responses and raised-then-swallowed errors are
`false`.  The function never raises. -/
def analyze_dependencies_detailed (package_json : Option PackageJson)
    (requirements_txt : Option String) (probe : String → Bool) : DepsAnalysis :=
  let deps : DepsAnalysis :=
    { total_count := 0, direct_dependencies := [], dev_dependencies := [],
      outdated_check := [], security_warnings := [], package_managers := [] }
  let deps :=
    match package_json with
    | some pj =>
      let deps := { deps with package_managers := deps.package_managers ++ ["npm/yarn"] }
      let deps :=
        match pj.dependencies with
        | some ds =>
          { deps with direct_dependencies := alSet deps.direct_dependencies "npm" ds,
                      total_count := deps.total_count + ds.length }
        | Option.none => deps
      let deps :=
        match pj.devDependencies with
        | some ds =>
          { deps with dev_dependencies := alSet deps.dev_dependencies "npm" ds,
                      total_count := deps.total_count + ds.length }
        | Option.none => deps
      let npmDeps : List (String × String) :=
        (alGet deps.direct_dependencies "npm").getD []
      let flexible := npmDeps.filterMap
        (fun (p : String × String) =>
          if p.2.startsWith "^" || p.2.startsWith "~" then
            some (p.1 ++ ": using flexible versioning (" ++ p.2 ++ ")")
          else Option.none)
      { deps with outdated_check := deps.outdated_check ++ flexible }
    | Option.none => deps
  let deps :=
    match requirements_txt with
    | some reqs =>
      let deps := { deps with package_managers := deps.package_managers ++ ["pip"] }
      let parsed := (reqs.splitOn "\n").foldl requirementsLine ([], deps.outdated_check)
      { deps with
        direct_dependencies := alSet deps.direct_dependencies "pip" parsed.1,
        total_count := deps.total_count + parsed.1.length,
        outdated_check := parsed.2 }
    | Option.none => deps
  let extra := extraManifests.filterMap
    (fun fm => if probe fm.1 then some fm.2 else Option.none)
  { deps with package_managers := deps.package_managers ++ extra }

/-- Result record of `analyze_code_quality_detailed`. -/
structure QualityRecord where
  test_coverage : String
  test_file_ratio : ℚ
  documentation_coverage : ℚ
  linting_config : List String
  ci_cd_tools : List String
  code_review_process : String
  branch_protection : Bool
  deriving DecidableEq

/-- Outcome of the branch-protection probe inside
`analyze_code_quality_detailed`: `okResp` is a truthy JSON payload without an
`"error"` key; `errResp` a degraded/falsy payload; `raised` an exception
swallowed by the bare `except`. -/
inductive ProbeOutcome where
  | okResp
  | errResp
  | raised

/-- Linting config filenames probed against the collected config files. -/
def lintingFiles : List String :=
  [".eslintrc", ".eslintrc.json", ".eslintrc.js", ".prettierrc",
   ".prettierrc.json", ".flake8", ".pylintrc", "pyproject.toml",
   ".rubocop.yml", "rustfmt.toml"]

/-- `lint_file.replace(".", "").split("rc")[0]`. -/
def lintLabel (lint_file : String) : String :=
  ((lint_file.replace "." "").splitOn "rc").headD ""

/-- `DeepAnalyzer.analyze_code_quality_detailed`.  Operates on the tree
features; the only provider interaction is the best-effort branch-protection
probe, given as an oracle outcome.  Each Python statement assigns a distinct
field of the `quality` dict, so the function is rendered as one record whose
fields carry the source's conditions.  Never raises. -/
def analyze_code_quality_detailed (bp : ProbeOutcome) (t : TreeAnalysis) :
    QualityRecord :=
  let total_files := t.total_files
  let test_files := t.test_files.length
  let ratio : ℚ :=
    if total_files > 0 then round1 (((test_files : ℚ) / (total_files : ℚ)) * 100)
    else 0
  { test_file_ratio := ratio
    test_coverage :=
      if total_files > 0 then
        if ratio > 30 then "High (>30% test files)"
        else if ratio > 15 then "Medium (15-30% test files)"
        else if ratio > 5 then "Low (5-15% test files)"
        else "Minimal (<5% test files)"
      else "Unknown"
    linting_config :=
      lintingFiles.filterMap (fun lf =>
        if t.config_files.any (fun f => strContains f lf) then some (lintLabel lf)
        else Option.none)
    ci_cd_tools :=
      (if t.config_files.any (fun f => strContains f ".github/workflows") then
        ["GitHub Actions"] else []) ++
      (if t.config_files.any (fun f => strContains f ".gitlab-ci") then
        ["GitLab CI"] else []) ++
      (if t.config_files.any (fun f => strContains f "Jenkinsfile") then
        ["Jenkins"] else []) ++
      (if t.config_files.any (fun f => strContains f ".travis") then
        ["Travis CI"] else [])
    branch_protection :=
      match bp with
      | .okResp => true
      | _ => false
    code_review_process :=
      match bp with
      | .okResp => "Protected branches with review requirements"
      | _ => "Unknown"
    documentation_coverage :=
      if total_files > 0 then
        round1 (((t.doc_files.length : ℚ) / (total_files : ℚ)) * 100)
      else 0 }

/-- Result record of `analyze_commit_activity`. -/
structure Activity where
  commit_frequency : Dict
  peak_hours : List String
  peak_days : List String
  avg_pr_merge_time : String
  issue_resolution_time : String
  contributor_distribution : List (String × String)
  commit_message_quality : String

/-- Hour of day (UTC) of an epoch timestamp. -/
def epochHour (e : Int) : Nat := ((e % 86400) / 3600).toNat

/-- Python `datetime.weekday()` (Monday = 0) of an epoch timestamp
(day 0 of the epoch was a Thursday). -/
def epochWeekday (e : Int) : Nat := (((e / 86400) + 3) % 7).toNat

/-- `["Monday", ..., "Sunday"]`. -/
def dayNames : List String :=
  ["Monday", "Tuesday", "Wednesday", "Thursday", "Friday", "Saturday", "Sunday"]

/-- The conventional-commit prefixes checked (by substring) for message
quality. -/
def goodPrefixes : List String := ["fix:", "feat:", "docs:", "refactor:", "test:"]

/-- `DeepAnalyzer.analyze_commit_activity`.  The three inputs come straight
from the provider, so each may be a degraded error dict; in that case the
Python body raises (`commits[:100]` slices a dict, iterating `issues`/`prs`
yields strings without `.get`), modelled by `.error`.  On well-formed lists it
is a pure computation and never raises. -/
def analyze_commit_activity (commits : Fetched (List Commit))
    (issues : Fetched (List Issue)) (prs : Fetched (List Pull)) :
    Except PyErr Activity := do
  let activity : Activity :=
    { commit_frequency := [], peak_hours := [], peak_days := [],
      avg_pr_merge_time := "Unknown", issue_resolution_time := "Unknown",
      contributor_distribution := [], commit_message_quality := "Unknown" }
  let commits ←
    match commits with
    | .ok cs => pure cs
    | .errorDict _ => throw "TypeError: unhashable type: 'slice'"
  let activity :=
    if !commits.isEmpty then
      let recent := commits.take 100
      let commit_times := recent.map (fun c => epochHour c.date)
      let commit_days := recent.map (fun c => epochWeekday c.date)
      let commit_authors := counter (recent.map (fun c => c.author_name))
      let activity :=
        if !commit_times.isEmpty then
          let peaks := mostCommon (counter commit_times) 3
          { activity with peak_hours := peaks.map (fun p =>
              let h := p.1
              let h1 := p.1 + 1
              let c := p.2
              s!"{h}:00-{h1}:00 UTC ({c} commits)") }
        else activity
      let activity :=
        if !commit_days.isEmpty then
          let peaks := mostCommon (counter commit_days) 3
          { activity with peak_days := peaks.map (fun p =>
              let d := dayNames.getD p.1 ""
              let c := p.2
              s!"{d} ({c} commits)") }
        else activity
      let total_commits := (commit_authors.map Prod.snd).sum
      let top_contributors := mostCommon commit_authors 5
      let distribution := top_contributors.map (fun p =>
        let pct := round1 (((p.2 : ℚ) / (total_commits : ℚ)) * 100)
        let c := p.2
        let pctStr := fmtRat pct
        (p.1, s!"{c} commits ({pctStr}%)"))
      let activity := { activity with contributor_distribution := distribution }
      let good_messages := ((commits.take 50).filter (fun c =>
        10 < c.message.length && c.message.length < 200 &&
        (goodPrefixes.any (fun p => strContains (pyLower c.message) p) ||
         ((c.message.splitOn "\n").headD "").length < 72))).length
      if good_messages > 35 then
        { activity with commit_message_quality := "Excellent (follows conventions)" }
      else if good_messages > 20 then
        { activity with commit_message_quality := "Good (mostly structured)" }
      else
        { activity with commit_message_quality := "Needs improvement" }
    else activity
  let prs ←
    match prs with
    | .ok ps => pure ps
    | .errorDict _ => throw "AttributeError: 'str' object has no attribute 'get'"
  let activity :=
    if !prs.isEmpty then
      let merge_times := (prs.take 20).filterMap (fun pr =>
        match pr.merged_at with
        | some m => some (((m - pr.created_at : Int) : ℚ) / 3600)
        | Option.none => Option.none)
      if !merge_times.isEmpty then
        let avg_hours := ratMean merge_times
        if avg_hours < 24 then
          let h := fmtRat (round1 avg_hours)
          { activity with avg_pr_merge_time := s!"{h} hours" }
        else
          let d := fmtRat (round1 (avg_hours / 24))
          { activity with avg_pr_merge_time := s!"{d} days" }
      else activity
    else activity
  let issues ←
    match issues with
    | .ok is => pure is
    | .errorDict _ => throw "AttributeError: 'str' object has no attribute 'get'"
  let activity :=
    if !issues.isEmpty then
      let resolution_times := (issues.take 20).filterMap (fun i =>
        match i.closed_at with
        | some cl => if !i.pull_request then
            some (((cl - i.created_at : Int) : ℚ) / 3600) else Option.none
        | Option.none => Option.none)
      if !resolution_times.isEmpty then
        let avg_hours := ratMean resolution_times
        if avg_hours < 24 then
          let h := fmtRat (round1 avg_hours)
          { activity with issue_resolution_time := s!"{h} hours" }
        else if avg_hours < 168 then
          let d := fmtRat (round1 (avg_hours / 24))
          { activity with issue_resolution_time := s!"{d} days" }
        else
          let w := fmtRat (round1 (avg_hours / 168))
          { activity with issue_resolution_time := s!"{w} weeks" }
      else activity
    else activity
  pure activity

/-- `DeepAnalyzer.identify_tech_debt_indicators`. -/
def identify_tech_debt_indicators (t : TreeAnalysis) (deps : DepsAnalysis)
    (quality : QualityRecord) : List String :=
  let indicators : List String := []
  let indicators := if t.max_depth > 6 then
    indicators ++ ["Deep nesting (>6 levels) indicates complex organization"] else indicators
  let indicators := if t.total_files > 500 then
    indicators ++ ["Large codebase (>500 files) may need modularization"] else indicators
  let indicators :=
    if deps.total_count > 50 then
      let n := deps.total_count
      indicators ++ [s!"High dependency count ({n}) increases maintenance burden"]
    else indicators
  let indicators := if deps.outdated_check.length > 5 then
    indicators ++ ["Multiple dependencies using flexible versioning"] else indicators
  let indicators := if quality.test_file_ratio < 10 then
    indicators ++ ["Low test coverage (<10% test files)"] else indicators
  let indicators := if quality.ci_cd_tools.isEmpty then
    indicators ++ ["No CI/CD pipeline detected"] else indicators
  let indicators := if quality.linting_config.isEmpty then
    indicators ++ ["No code linting configuration found"] else indicators
  let indicators := if quality.documentation_coverage < 5 then
    indicators ++ ["Minimal documentation coverage"] else indicators
  if indicators.isEmpty then
    ["No significant technical debt indicators detected"]
  else indicators

/-- Result record of `analyze_security_posture`. -/
structure SecurityAnalysis where
  dependency_risks : List String
  security_features : List String
  vulnerabilities : List String
  deriving DecidableEq

/-- `DeepAnalyzer.analyze_security_posture`. -/
def analyze_security_posture (deps : DepsAnalysis) (quality : QualityRecord) :
    SecurityAnalysis :=
  let security : SecurityAnalysis :=
    { dependency_risks := [], security_features := [], vulnerabilities := [] }
  let risks := deps.direct_dependencies.foldl (fun acc mp =>
    if mp.1 = "npm" || mp.1 = "pip" then
      acc ++ mp.2.map (fun p =>
        let pkg := p.1
        s!"Check {pkg} version for known vulnerabilities")
    else acc) []
  let security := { security with dependency_risks := risks }
  let security :=
    if quality.branch_protection then
      let fs := security.security_features ++ ["Branch protection enabled"]
      { security with security_features := fs }
    else security
  let security :=
    if quality.ci_cd_tools.any (fun f => strContains (pyLower f) "dependabot") then
      let fs := security.security_features ++ ["Automated dependency updates"]
      { security with security_features := fs }
    else security
  let security :=
    if quality.ci_cd_tools.any (fun f => strContains (pyLower f) "security") then
      let fs := security.security_features ++ ["Security scanning in CI/CD"]
      { security with security_features := fs }
    else security
  if security.security_features.isEmpty then
    { security with security_features := ["Consider enabling security features"] }
  else security

/-! ### Project-health scorer (`backend/enhanced_analyzer.py`) -/

/-- `EnhancedAnalyzer._calculate_health_score`, sequential score updates as in
the source. -/
def _calculate_health_score (now : Int) (issues : List Issue) (prs : List Pull) :
    Int :=
  let score : Int := 50
  let score :=
    if !issues.isEmpty then
      let open_ratio : ℚ :=
        ((issues.filter (fun i => i.state = "open")).length : ℚ) / (issues.length : ℚ)
      if open_ratio < 3/10 then score + 20
      else if open_ratio > 7/10 then score - 20
      else score
    else score
  let score :=
    if !prs.isEmpty then
      let merged_ratio : ℚ :=
        ((prs.filter (fun p => p.merged_at.isSome)).length : ℚ) / (prs.length : ℚ)
      if merged_ratio > 7/10 then score + 15
      else if merged_ratio < 3/10 then score - 15
      else score
    else score
  let recent_activity :=
    (issues.filter (fun i => i.updated_at > now - 30 * 86400)).length
  let score := if recent_activity > 5 then score + 15 else score
  max 0 (min 100 score)

/-- Modelled from the spec (section 4.4): base 50, plus 20 if open-issue ratio
below 30 percent, minus 20 if above 70 percent, plus 15 if merged-PR ratio
above 70 percent, minus 15 if below 30 percent, plus 15 if more than 5 issues
were updated in the last 30 days, clamped to [0, 100] (ratio adjustments apply
when the respective list is nonempty). -/
def healthScoreSpec (now : Int) (issues : List Issue) (prs : List Pull) : Int :=
  let openRatio : ℚ :=
    ((issues.filter (fun i => i.state = "open")).length : ℚ) / (issues.length : ℚ)
  let mergedRatio : ℚ :=
    ((prs.filter (fun p => p.merged_at.isSome)).length : ℚ) / (prs.length : ℚ)
  let recent := (issues.filter (fun i => i.updated_at > now - 30 * 86400)).length
  let raw : Int := 50
    + (if issues ≠ [] ∧ openRatio < 3/10 then 20 else 0)
    - (if issues ≠ [] ∧ openRatio > 7/10 then 20 else 0)
    + (if prs ≠ [] ∧ mergedRatio > 7/10 then 15 else 0)
    - (if prs ≠ [] ∧ mergedRatio < 3/10 then 15 else 0)
    + (if recent > 5 then 15 else 0)
  max 0 (min 100 raw)

/-! ### Report Assembler (`backend/repo_processor.py`) -/

/-- Fields of the repository-info payload read by the processor.
`get_repository_info` substitutes a default structure on provider errors, so
this record is always available.  Plain fields bake in the `.get(k, default)`
defaults used at every read site; `license` is `Option (Option String)`
because the code distinguishes a missing/falsy `license` object from a
license object without a `name`.  ISO-8601 timestamp strings are modelled by
their epoch value. -/
structure RepoInfo where
  size : Int
  license : Option (Option String)
  default_branch : Option String
  created_at : Option Int
  updated_at : Option Int
  stargazers_count : Int
  forks_count : Int
  watchers_count : Int
  language : Option String
  deriving DecidableEq

/-- Python `max(items, key=lambda x: x[1])` over association pairs: the first
entry holding the maximal value. -/
def maxBySnd (p : String × ℚ) (rest : List (String × ℚ)) : String × ℚ :=
  rest.foldl (fun best q => if q.2 > best.2 then q else best) p

/-- `RepoProcessor._calculate_commit_frequency`. -/
def _calculate_commit_frequency (repo_info : RepoInfo) : String :=
  match repo_info.created_at, repo_info.updated_at with
  | some c, some u =>
    let days_active := Int.fdiv (u - c) 86400
    if days_active > 0 then s!"Active for {days_active} days"
    else "Unable to calculate"
  | _, _ => "Unable to calculate"

/-- `RepoProcessor._calculate_repo_age` (in years, `days / 365.25`). -/
def _calculate_repo_age (now : Int) (created_at : Option Int) : ℚ :=
  match created_at with
  | Option.none => 0
  | some c => ((Int.fdiv (now - c) 86400 : Int) : ℚ) / (1461 / 4 : ℚ)

/-- `RepoProcessor._process_metadata`.  A degraded `languages` payload is the
`\x7b"error": ..., "partial": True\x7d` dict: it is truthy, and
`sum(languages.values())` over its string/bool values raises `TypeError`.
A well-typed nonempty `languages` dict whose byte counts sum to zero raises
`ZeroDivisionError`: the `language_percentages` comprehension only runs when
`languages` is truthy, and it divides each `bytes_count` by `total_bytes`.
A degraded `contributors` payload does not raise: `len` of the two-key error
dict is just `2`. -/
def _process_metadata (repo_info : RepoInfo)
    (languages : Fetched (List (String × Nat)))
    (contributors : Fetched (List String)) : Except PyErr Dict := do
  let langs ←
    match languages with
    | .ok ls => pure ls
    | .errorDict _ =>
      throw "TypeError: unsupported operand type(s) for +: 'int' and 'str'"
  if (!langs.isEmpty) = true ∧ (langs.map Prod.snd).sum = 0 then
    throw "ZeroDivisionError: division by zero"
  else
    let contributor_count : Nat :=
      match contributors with
      | .ok cs => cs.length
      | .errorDict _ => 2
    let total_bytes : ℚ := if !langs.isEmpty then ((langs.map Prod.snd).sum : ℚ) else 1
    let language_percentages : List (String × ℚ) :=
      if !langs.isEmpty then
        langs.map (fun lb => (lb.1, round1 (((lb.2 : ℚ) / total_bytes) * 100)))
      else []
    let primary_language :=
      match language_percentages with
      | [] => "Unknown"
      | p :: rest => (maxBySnd p rest).1
    let license_type : Val :=
      match repo_info.license with
      | some (some name) => Val.str name
      | some Option.none => Val.none
      | Option.none => Val.str "No License"
    let optEpoch : Option Int → Val := fun o =>
      match o with
      | some t => Val.int t
      | Option.none => Val.none
    pure
      [("language_composition",
          Val.dict (language_percentages.map (fun p => (p.1, Val.rat p.2)))),
       ("primary_stack", Val.str primary_language),
       ("repository_size_kb", Val.int repo_info.size),
       ("commit_frequency", Val.str (_calculate_commit_frequency repo_info)),
       ("contributor_count", Val.int contributor_count),
       ("license_type", license_type),
       ("dependency_count", Val.str "Analyzed in Architecture Synopsis"),
       ("latest_release", Val.str (repo_info.default_branch.getD "main")),
       ("created_date", optEpoch repo_info.created_at),
       ("last_updated", optEpoch repo_info.updated_at),
       ("stars", Val.int repo_info.stargazers_count),
       ("forks", Val.int repo_info.forks_count),
       ("watchers", Val.int repo_info.watchers_count)]

/-- Python `repr` of a string-to-string dict, as produced by
`str(package_json.get("devDependencies", \x7b\x7d))`. -/
def pyDictRepr (l : List (String × String)) : String :=
  "\x7b" ++
    String.intercalate ", "
      (l.map (fun p => "'" ++ p.1 ++ "': '" ++ p.2 ++ "'")) ++
  "\x7d"

/-- `RepoProcessor._detect_build_system`. -/
def _detect_build_system (package_json : Option PackageJson)
    (requirements_txt : Option String) : String :=
  match package_json with
  | some pj =>
    if strContains (pyDictRepr (pj.devDependencies.getD [])) "webpack" then "Webpack"
    else if strContains (pyDictRepr (pj.devDependencies.getD [])) "vite" then "Vite"
    else if (match alGet pj.scripts "build" with
             | some s => !s.isEmpty
             | Option.none => false) then "NPM Scripts"
    else "Node.js"
  | Option.none =>
    match requirements_txt with
    | some _ => "Python/pip"
    | Option.none => "Unknown"

/-- Dependency names pulled from `requirements.txt` lines by
`_process_architecture`. -/
def pythonDepNames (requirements_txt : String) : List String :=
  ((requirements_txt.trim.splitOn "\n").filter
      (fun l => !l.isEmpty && !l.startsWith "#")).map
    (fun l =>
      (((((l.splitOn "==").headD "").splitOn ">=").headD "").splitOn "<=").headD "")

/-- `RepoProcessor._process_architecture` (base block; never raises). -/
def _process_architecture (package_json : Option PackageJson)
    (requirements_txt : Option String) : Dict :=
  let entry_points : List String :=
    match package_json with
    | some pj => pj.scripts.map (fun sc => sc.1 ++ ": " ++ sc.2)
    | Option.none => []
  let core : List String :=
    match package_json with
    | some pj => (pj.dependencies.getD []).map Prod.fst
    | Option.none => []
  let dev : List String :=
    match package_json with
    | some pj => (pj.devDependencies.getD []).map Prod.fst
    | Option.none => []
  let core := core ++
    (match requirements_txt with
     | some r => pythonDepNames r
     | Option.none => [])
  let entryVal :=
    if entry_points.isEmpty then Val.list [Val.str "No explicit entry points found"]
    else Val.list (entry_points.map Val.str)
  [("entry_points", entryVal),
   ("directory_structure", Val.str "TBD - Requires tree analysis"),
   ("core_dependencies", Val.list ((core.take 20).map Val.str)),
   ("dev_dependencies", Val.list ((dev.take 20).map Val.str)),
   ("build_system", Val.str (_detect_build_system package_json requirements_txt)),
   ("deployment_pipeline", Val.str "TBD - Requires CI/CD analysis")]

/-- `RepoProcessor._process_quality_metrics` (base block; never raises). -/
def _process_quality_metrics (workflows : List Workflow) : Dict :=
  let has_actions := workflows.length > 0
  let recent_workflows := (workflows.filter (fun w => w.status = "completed")).take 5
  let n := workflows.length
  [("test_coverage_percentage", Val.str "TBD - Requires code analysis"),
   ("testing_framework", Val.str "TBD - Requires file analysis"),
   ("linting_standards", Val.str "TBD - Requires config file analysis"),
   ("ci_cd_pipeline_status", Val.str (if has_actions then "Active" else "Not detected")),
   ("automation_scope",
      Val.str (if !workflows.isEmpty then s!"{n} workflow runs found"
               else "No automation detected")),
   ("security_vulnerabilities", Val.str "TBD - Requires security scan"),
   ("recent_workflow_results",
      Val.list (recent_workflows.map (fun w =>
        Val.dict
          [("name", Val.str (w.name.getD "Unknown")),
           ("status", Val.str (w.conclusion.getD "unknown")),
           ("date", match w.updated_at with
                    | some t => Val.int t
                    | Option.none => Val.none)])))]

/-- The `summary_lines` loop of `_process_documentation`: collect trimmed,
non-heading, nonempty lines, stopping once three are gathered. -/
def collectSummary : List String → List String → List String
  | [], acc => acc
  | l :: ls, acc =>
    if acc.length ≥ 3 then acc
    else
      let acc := if !l.trim.isEmpty && !l.startsWith "#" then acc ++ [l.trim] else acc
      if acc.length ≥ 3 then acc else collectSummary ls acc

/-- `RepoProcessor._process_documentation`.  The `re.search` for an
installation section is given as an oracle `install_section` (the captured
group, when the regex matched); no proved property depends on the regex
semantics.  Never raises. -/
def _process_documentation (readme : Option String) (install_section : Option String)
    (repo_info : RepoInfo) : Dict :=
  let readme_summary :=
    match readme with
    | some r =>
      if !r.isEmpty then
        let summary_lines := collectSummary ((r.splitOn "\n").take 20) []
        if !summary_lines.isEmpty then String.intercalate " " summary_lines
        else "README exists but no summary found"
      else "No README found"
    | Option.none => "No README found"
  let installation_steps : List String :=
    match readme with
    | some r =>
      if !r.isEmpty && strContains (pyLower r) "install" then
        match install_section with
        | some sect =>
          (((sect.splitOn "\n").take 5).map String.trim).filter (fun l => !l.isEmpty)
        | Option.none => []
      else []
    | Option.none => []
  let lang := repo_info.language.getD "Unknown"
  let summaryVal :=
    if readme_summary.length > 500 then readme_summary.take 500 ++ "..."
    else readme_summary
  [("readme_summary", Val.str summaryVal),
   ("api_documentation", Val.str "TBD - Requires API endpoint analysis"),
   ("installation_requirements",
      Val.list (if installation_steps.isEmpty then
                  [Val.str "Check README for installation instructions"]
                else installation_steps.map Val.str)),
   ("configuration_variables", Val.str "TBD - Requires env file analysis"),
   ("known_limitations", Val.str "TBD - Requires issue analysis"),
   ("compatibility_constraints", Val.str s!"Language: {lang}")]

/-- `RepoProcessor._process_activity` (base block).  Raise sites: a degraded
`commits` dict cannot be sliced (`TypeError`); iterating a degraded
`issues`/`pull_requests` dict yields its string keys, which have no `.get`
(`AttributeError`); `releases[0]` on a degraded `releases` dict raises
`KeyError` (while `len(releases)` of the two-key error dict is just 2 and
does not). -/
def _process_activity (commits : Fetched (List Commit))
    (issues : Fetched (List Issue)) (prs : Fetched (List Pull))
    (releases : Fetched (List Val)) (now : Int) : Except PyErr Dict := do
  let cs ←
    match commits with
    | .ok cs => pure cs
    | .errorDict _ => throw "TypeError: unhashable type: 'slice'"
  let recent_commits := cs.take 30
  let commit_dates := recent_commits.map (fun c => c.date)
  let commit_frequency : ℚ :=
    match commit_dates with
    | [] => 0
    | d :: ds =>
      let minDate := ds.foldl min d
      let days_diff := Int.fdiv (now - minDate) 86400
      if days_diff > 0 then
        (commit_dates.length : ℚ) / ((max days_diff 1 : Int) : ℚ)
      else (commit_dates.length : ℚ)
  let is ←
    match issues with
    | .ok is => pure is
    | .errorDict _ => throw "AttributeError: 'str' object has no attribute 'get'"
  let ps ←
    match prs with
    | .ok ps => pure ps
    | .errorDict _ => throw "AttributeError: 'str' object has no attribute 'get'"
  let open_issues := is.filter (fun i => i.state = "open" && !i.pull_request)
  let open_prs := ps.filter (fun p => p.state = "open")
  let release_cadence : String ←
    match releases with
    | .ok rs =>
      let n := rs.length
      pure (if !rs.isEmpty then s!"{n} releases total" else "No releases")
    | .errorDict _ => pure "2 releases total"
  let latest_release : Val ←
    match releases with
    | .ok rs =>
      match rs with
      | r :: _ => pure r
      | [] => pure Val.none
    | .errorDict _ => throw "KeyError: 0"
  let nRecent := recent_commits.length
  let nOpenIssues := open_issues.length
  let nOpenPrs := open_prs.length
  let nActive := (dedupFirst (recent_commits.filterMap (fun c => c.author_login))).length
  pure
    [("recent_commit_patterns", Val.str s!"{nRecent} commits in last 30"),
     ("commit_frequency_per_day", Val.rat (round2 commit_frequency)),
     ("release_cadence", Val.str release_cadence),
     ("open_issues_count", Val.int nOpenIssues),
     ("open_pull_requests", Val.int nOpenPrs),
     ("pull_request_velocity", Val.str "TBD - Requires temporal analysis"),
     ("contributor_activity", Val.str s!"{nActive} active contributors"),
     ("breaking_changes", Val.str "TBD - Requires changelog analysis"),
     ("latest_release", latest_release)]

/-- `RepoProcessor._process_technical_debt` (base block; never raises). -/
def _process_technical_debt (repo_info : RepoInfo) (now : Int) : Dict :=
  let age_years := _calculate_repo_age now repo_info.created_at
  let debt_indicators : List String := []
  let debt_indicators :=
    if age_years > 3 then
      debt_indicators ++
        ["Repository is over 3 years old - check for outdated dependencies"]
    else debt_indicators
  let debt_indicators :=
    if repo_info.size > 100000 then
      debt_indicators ++
        ["Large repository size may indicate accumulated technical debt"]
    else debt_indicators
  let ageStr := fmtRat (round1 age_years)
  [("outdated_dependencies", Val.str "TBD - Requires dependency version analysis"),
   ("security_implications", Val.str "TBD - Requires vulnerability scan"),
   ("code_complexity_hotspots", Val.str "TBD - Requires static analysis"),
   ("performance_bottlenecks", Val.str "TBD - Requires performance profiling"),
   ("scalability_concerns", Val.str "TBD - Requires architecture analysis"),
   ("maintenance_burden", Val.str s!"Repository age: {ageStr} years"),
   ("debt_indicators",
      Val.list (if debt_indicators.isEmpty then
                  [Val.str "No immediate debt indicators detected"]
                else debt_indicators.map Val.str)),
   ("refactoring_opportunities", Val.str "TBD - Requires code analysis")]

/-- `RepoProcessor._process_architecture_deep`: base block, then deep fields
overwrite/extend it field by field.  Never raises. -/
def _process_architecture_deep (package_json : Option PackageJson)
    (requirements_txt : Option String) (tree : TreeAnalysis)
    (deep_deps : DepsAnalysis) : Dict :=
  let base := _process_architecture package_json requirements_txt
  let td := tree.total_dirs
  let tf := tree.total_files
  let md := tree.max_depth
  let nMods := tree.directory_structure.length
  let tc := deep_deps.total_count
  let nPm := deep_deps.package_managers.length
  let base := dSet base "architecture_pattern" (Val.str (detect_architecture_pattern tree))
  let base := dSet base "data_flow_analysis"
    (Val.str s!"Repository structure: {td} directories, {tf} files, max depth: {md}")
  let base := dSet base "scalability_assessment"
    (Val.str s!"Modular structure with {nMods} modules")
  let base := dSet base "performance_considerations"
    (Val.str s!"Dependencies: {tc} total packages across {nPm} package managers")
  let dir_struct := tree.directory_structure
  let base :=
    if !dir_struct.isEmpty then
      let top_dirs := dedupFirst ((alKeys dir_struct).filterMap (fun path =>
        let h := ((path.splitOn "/").headD "")
        if !h.isEmpty then some h else Option.none))
      let folders := String.intercalate ", " (sortedStrings (top_dirs.take 10))
      let dir_summary := s!"{tf} files in {td} directories" ++
        (if !top_dirs.isEmpty then s!" | Main folders: {folders}" else "")
      dSet base "directory_structure" (Val.str dir_summary)
    else
      dSet base "directory_structure" (Val.str s!"{tf} files, {td} directories")
  let base :=
    if !deep_deps.package_managers.isEmpty then
      let pms := String.intercalate ", " deep_deps.package_managers
      dSet base "deployment_pipeline" (Val.str s!"Detected: {pms}")
    else base
  if !tree.file_types.isEmpty then
    let top_types := mostCommon tree.file_types 5
    let techs := String.intercalate ", " (top_types.map (fun p =>
      let ext := p.1
      let c := p.2
      s!"{ext}: {c} files"))
    dSet base "primary_technologies" (Val.str techs)
  else base

/-- `RepoProcessor._process_quality_metrics_deep`.  Never raises. -/
def _process_quality_metrics_deep (workflows : List Workflow)
    (deep_quality : QualityRecord) : Dict :=
  let base := _process_quality_metrics workflows
  let ratioStr := fmtRat deep_quality.test_file_ratio
  let docStr := fmtRat deep_quality.documentation_coverage
  let base := dSet base "testing_framework" (Val.str deep_quality.test_coverage)
  let base := dSet base "code_coverage" (Val.str s!"{ratioStr}% test files")
  let base := dSet base "linting_standards"
    (Val.str (if !deep_quality.linting_config.isEmpty then
                String.intercalate ", " deep_quality.linting_config
              else "No linting config detected"))
  let base := dSet base "documentation_quality"
    (Val.str s!"{docStr}% documentation coverage")
  let base := dSet base "automation_scope"
    (Val.str (if !deep_quality.ci_cd_tools.isEmpty then
                String.intercalate ", " deep_quality.ci_cd_tools
              else "No CI/CD detected"))
  let base := dSet base "branch_protection"
    (Val.str (if deep_quality.branch_protection then "Enabled" else "Not enabled"))
  dSet base "code_review_process" (Val.str deep_quality.code_review_process)

/-- `RepoProcessor._process_activity_deep`: base activity block, deep fields,
peak-time/top-contributor fields only when the deep data is truthy, and the
breaking-change scan over the last 30 commit messages. -/
def _process_activity_deep (commits : Fetched (List Commit))
    (issues : Fetched (List Issue)) (prs : Fetched (List Pull))
    (releases : Fetched (List Val)) (deep_activity : Activity) (now : Int) :
    Except PyErr Dict := do
  let base ← _process_activity commits issues prs releases now
  let base := dSet base "pull_request_velocity" (Val.str deep_activity.avg_pr_merge_time)
  let base := dSet base "issue_resolution_time"
    (Val.str deep_activity.issue_resolution_time)
  let base := dSet base "commit_message_quality"
    (Val.str deep_activity.commit_message_quality)
  let base :=
    if !deep_activity.peak_hours.isEmpty then
      dSet base "peak_development_hours"
        (Val.str (String.intercalate ", " (deep_activity.peak_hours.take 2)))
    else base
  let base :=
    if !deep_activity.peak_days.isEmpty then
      dSet base "peak_development_days"
        (Val.str (String.intercalate ", " (deep_activity.peak_days.take 2)))
    else base
  let base :=
    if !deep_activity.contributor_distribution.isEmpty then
      dSet base "top_contributors"
        (Val.dict (deep_activity.contributor_distribution.map
          (fun p => (p.1, Val.str p.2))))
    else base
  let cs : List Commit :=
    match commits with
    | .ok cs => cs
    | .errorDict _ => []
  let breaking_changes := (cs.take 30).filterMap (fun c =>
    let message := pyLower c.message
    if strContains message "breaking" || strContains message "major" ||
       strContains message "incompatible" then
      some (((message.splitOn "\n").headD "").take 100)
    else Option.none)
  let base := dSet base "breaking_changes"
    (if !breaking_changes.isEmpty then
       Val.list ((breaking_changes.take 3).map Val.str)
     else Val.list [Val.str "No breaking changes detected in recent commits"])
  pure base

/-- `RepoProcessor._process_technical_debt_deep`.  Never raises. -/
def _process_technical_debt_deep (repo_info : RepoInfo) (tree : TreeAnalysis)
    (deep_deps : DepsAnalysis) (deep_quality : QualityRecord)
    (security_analysis : SecurityAnalysis) (now : Int) : Dict :=
  let base := _process_technical_debt repo_info now
  let debt_indicators := identify_tech_debt_indicators tree deep_deps deep_quality
  let base := dSet base "outdated_dependencies"
    (Val.str (if !deep_deps.outdated_check.isEmpty then
                (String.intercalate ", " deep_deps.outdated_check).take 200
              else "All dependencies use fixed versioning"))
  let base := dSet base "security_implications"
    (Val.list (security_analysis.dependency_risks.map Val.str))
  let md := tree.max_depth
  let tf := tree.total_files
  let base := dSet base "code_complexity_hotspots"
    (Val.str s!"Repository complexity: {md} levels deep, {tf} files")
  let mb := fmtRat (round1 ((repo_info.size : ℚ) / 1024))
  let base := dSet base "performance_bottlenecks"
    (Val.str (if repo_info.size > 50000 then s!"Large repository size: {mb}MB"
              else "Repository size is manageable"))
  let tc := deep_deps.total_count
  let base := dSet base "scalability_concerns"
    (Val.str (if deep_deps.total_count > 30 then s!"Total dependencies: {tc}"
              else "Dependency count is reasonable"))
  let base := dSet base "debt_indicators" (Val.list (debt_indicators.map Val.str))
  let base := dSet base "refactoring_opportunities" (Val.list
    [Val.str (if tree.directory_structure.any (fun p => p.2.length > 20) then
                "Consider breaking down directories with many files"
              else "File organization appears good"),
     Val.str (if deep_quality.test_file_ratio < 15 then
                "Add more tests to improve coverage"
              else "Test coverage appears adequate"),
     Val.str (if deep_quality.linting_config.isEmpty then
                "Implement linting standards"
              else "Linting is configured")])
  if !security_analysis.security_features.isEmpty then
    dSet base "security_features"
      (Val.list (security_analysis.security_features.map Val.str))
  else base

/-! ### `analyze_repository` and its environment -/

/-- `GitHubAnalyzer.parse_repo_url`: the `urlparse(...).path` of an
http(s)-prefixed locator, modelled for scheme://netloc/path?query#fragment
shapes (queries and fragments stripped, then everything after the network
location). -/
def urlPath (u : String) : String :=
  let u := (u.splitOn "#").headD ""
  let u := (u.splitOn "?").headD ""
  if strContains u "://" then
    let after := String.intercalate "://" (u.splitOn "://").tail
    match (after.splitOn "/").tail with
    | [] => ""
    | ps => "/" ++ String.intercalate "/" ps
  else u

/-- `GitHubAnalyzer.parse_repo_url`: extract `(owner, repo)` or raise
`ValueError` on a malformed locator. -/
def parse_repo_url (repo_url : String) : Except PyErr (String × String) :=
  if repo_url.startsWith "http" then
    let path_parts := (stripSlashes (urlPath repo_url)).splitOn "/"
    if path_parts.length ≥ 2 then
      Except.ok (path_parts.getD 0 "", path_parts.getD 1 "")
    else Except.error ("Invalid GitHub repository URL: " ++ repo_url)
  else
    let parts := repo_url.splitOn "/"
    if parts.length = 2 then
      Except.ok (parts.getD 0 "", parts.getD 1 "")
    else Except.error ("Invalid GitHub repository URL: " ++ repo_url)

/-- Provider-facing environment of one `analyze_repository` run: the outcome
of every collaborator interaction.  `enhanced` is the guarded
`OptimizedAnalyzer.get_quick_insights` call (an exception there is caught);
`enhancedCalls` is how many provider requests it performed.  `tree_resp`,
`manifest_probe` and `bp_probe` are the provider interactions internal to the
deep-analysis stages. -/
structure Env where
  repo_info : RepoInfo
  languages : Fetched (List (String × Nat))
  contributors : Fetched (List String)
  commits : Fetched (List Commit)
  releases : Fetched (List Val)
  issues : Fetched (List Issue)
  pulls : Fetched (List Pull)
  readme : Option String
  package_json : Option PackageJson
  requirements_txt : Option String
  workflows : List Workflow
  enhanced : Except PyErr Val
  enhancedCalls : Nat
  tree_resp : Fetched (List TreeItem)
  manifest_probe : String → Bool
  bp_probe : ProbeOutcome
  install_section : Option String

/-- Provider requests issued by one fresh (cache-missing) analysis: the 11
direct getter calls, the tree fetch (repository info + git tree), the 5
extra manifest probes, the branch-protection probe (repository info +
protection), plus whatever the enhanced stage performed. -/
def apiCallCount (env : Env) : Nat := 11 + 2 + 5 + 2 + env.enhancedCalls

/-- The `analysis = \x7b...\x7d` literal of `analyze_repository` (lines
67-84), including the conditional `enhanced_insights` merge.  Raise sites are
exactly those of the fallible section builders. -/
def buildAnalysis (env : Env) (now : Int) (owner repo : String)
    (tree : TreeAnalysis) (deep_deps : DepsAnalysis)
    (deep_quality : QualityRecord) (deep_activity : Activity)
    (security_analysis : SecurityAnalysis) (enhanced_insights : Option Val) :
    Except PyErr Val := do
  let md ← _process_metadata env.repo_info env.languages env.contributors
  let arch := _process_architecture_deep env.package_json env.requirements_txt
    tree deep_deps
  let qual := _process_quality_metrics_deep env.workflows deep_quality
  let docs := _process_documentation env.readme env.install_section env.repo_info
  let act ← _process_activity_deep env.commits env.issues env.pulls env.releases
    deep_activity now
  let debt := _process_technical_debt_deep env.repo_info tree deep_deps
    deep_quality security_analysis now
  let raw_data : Dict :=
    [("fetched_at", Val.int now),
     ("repo_url", Val.str ("https://github.com/" ++ owner ++ "/" ++ repo)),
     ("api_calls_made", Val.int 8),
     ("enhanced_analysis", Val.bool enhanced_insights.isSome)]
  let analysis : Dict :=
    [("repository_metadata", Val.dict md),
     ("architecture_synopsis", Val.dict arch),
     ("code_quality_metrics", Val.dict qual),
     ("documentation_extraction", Val.dict docs),
     ("development_activity", Val.dict act),
     ("technical_debt_assessment", Val.dict debt),
     ("raw_data", Val.dict raw_data)]
  let analysis :=
    match enhanced_insights with
    | some e => if e.truthy then dSet analysis "enhanced_insights" e else analysis
    | Option.none => analysis
  pure (Val.dict analysis)

/-- The body of `analyze_repository` after a cache miss: fetch, run deep
stages, assemble, cache the successful analysis with a 1800-unit TTL, and
return it together with the updated cache and the provider-call count. -/
def analyzeFresh (env : Env) (st : RepositoryCache) (now : Int)
    (owner repo : String) : Except PyErr (Val × RepositoryCache × Nat) := do
  let enhanced_insights : Option Val :=
    match env.enhanced with
    | Except.ok v => some v
    | Except.error _ => Option.none
  let tree := analyze_file_tree env.tree_resp
  let deep_deps := analyze_dependencies_detailed env.package_json
    env.requirements_txt env.manifest_probe
  let deep_quality := analyze_code_quality_detailed env.bp_probe tree
  let deep_activity ← analyze_commit_activity env.commits env.issues env.pulls
  let security_analysis := analyze_security_posture deep_deps deep_quality
  let analysis ← buildAnalysis env now owner repo tree deep_deps deep_quality
    deep_activity security_analysis enhanced_insights
  let st := cache_repository_analysis st now owner repo analysis
  pure (analysis, st, apiCallCount env)

/-- `RepoProcessor.analyze_repository`: parse the locator, consult the cache
(a truthy hit is returned as-is with zero provider calls), otherwise run the
fresh analysis.  The whole body sits in `try/except Exception`, whose handler
re-raises every exception wrapped as `"Repository analysis failed: ..."` -
including the `ValueError` of a malformed locator. -/
def analyze_repository (env : Env) (st : RepositoryCache) (now : Int)
    (repo_url : String) : Except PyErr (Val × RepositoryCache × Nat) :=
  Except.mapError (fun e => "Repository analysis failed: " ++ e) <| do
    let (owner, repo) ← parse_repo_url repo_url
    let (cached, st) := get_cached_analysis st now owner repo
    match cached with
    | some v =>
      if v.truthy then pure (v, st, 0)
      else analyzeFresh env st now owner repo
    | Option.none => analyzeFresh env st now owner repo

/-! ### Fixtures and derived predicates used by the verification theorems -/

def mvcTree : TreeAnalysis :=
  { total_files := 3, total_dirs := 4,
    file_types := [],
    directory_structure :=
      [("controllers", ["a.py"]), ("models", ["b.py"]), ("views", ["c.py"]),
       ("services", ["d.py"])],
    config_files := [], test_files := [], doc_files := [], max_depth := 1 }

def healthIssues10 : List Issue :=
  List.replicate 10
    { state := "closed", pull_request := false, created_at := 0,
      closed_at := some 10, updated_at := 100 }

def healthPulls10 : List Pull :=
  List.replicate 10 { state := "closed", created_at := 0, merged_at := some 5 }

def c9Tree : TreeAnalysis :=
  { total_files := 20, total_dirs := 1, file_types := [],
    directory_structure := [], config_files := [], test_files := ["tests/test_a.py"],
    doc_files := [], max_depth := 1 }

def c4cache : RepositoryCache := RepositoryCache.init 100 900

def insertSeq (v : Val) : RepositoryCache → List (String × Int) → RepositoryCache
  | c, [] => c
  | c, (k, t) :: rest => insertSeq v (c.set t k v Option.none) rest

/-- The entry written for `(key, time)` by `set` with default TTL `dttl`. -/
def seqEntry (v : Val) (dttl : Int) (p : String × Int) : String × CacheEntry :=
  (p.1, { value := v, expires_at := p.2 + dttl, created_at := p.2 })

def CacheInv (c : RepositoryCache) : Prop :=
  c.cache.length ≤ c.max_size ∧ alKeys c.cache = alKeys c.access_times

def c10cache : RepositoryCache :=
  { cache := [("a", { value := Val.str "1", expires_at := 1000, created_at := 0 }),
              ("b", { value := Val.str "2", expires_at := 1000, created_at := 1 })],
    access_times := [("a", 0), ("b", 1)], max_size := 2, default_ttl := 900,
    hits := 0, misses := 0 }

def archKeys : List String :=
  ["entry_points", "directory_structure", "core_dependencies", "dev_dependencies",
   "build_system", "deployment_pipeline", "architecture_pattern",
   "data_flow_analysis", "scalability_assessment", "performance_considerations"]

def qualityKeys : List String :=
  ["test_coverage_percentage", "testing_framework", "linting_standards",
   "ci_cd_pipeline_status", "automation_scope", "security_vulnerabilities",
   "recent_workflow_results", "code_coverage", "documentation_quality",
   "branch_protection", "code_review_process"]

def docKeys : List String :=
  ["readme_summary", "api_documentation", "installation_requirements",
   "configuration_variables", "known_limitations", "compatibility_constraints"]

def activityKeys : List String :=
  ["recent_commit_patterns", "commit_frequency_per_day", "release_cadence",
   "open_issues_count", "open_pull_requests", "pull_request_velocity",
   "contributor_activity", "breaking_changes", "latest_release",
   "issue_resolution_time", "commit_message_quality"]

def debtKeys : List String :=
  ["outdated_dependencies", "security_implications", "code_complexity_hotspots",
   "performance_bottlenecks", "scalability_concerns", "maintenance_burden",
   "debt_indicators", "refactoring_opportunities"]

def metadataKeys : List String :=
  ["language_composition", "primary_stack", "repository_size_kb",
   "commit_frequency", "contributor_count", "license_type", "dependency_count",
   "latest_release", "created_date", "last_updated", "stars", "forks", "watchers"]

def sectOK (top : Dict) (sect : String) (ks : List String) : Prop :=
  ∃ d, dGet top sect = some (Val.dict d) ∧ ∀ k ∈ ks, k ∈ alKeys d

def ReportComplete (rep : Val) : Prop :=
  ∃ top, rep = Val.dict top ∧
    sectOK top "repository_metadata" metadataKeys ∧
    sectOK top "architecture_synopsis" archKeys ∧
    sectOK top "code_quality_metrics" qualityKeys ∧
    sectOK top "documentation_extraction" docKeys ∧
    sectOK top "development_activity" activityKeys ∧
    sectOK top "technical_debt_assessment" debtKeys

def repoInfo0 : RepoInfo :=
  { size := 100, license := Option.none, default_branch := some "main",
    created_at := some 0, updated_at := some 86400,
    stargazers_count := 1, forks_count := 0, watchers_count := 1,
    language := some "Python" }

def env0 : Env :=
  { repo_info := repoInfo0,
    languages := Fetched.ok [("Python", 1000)],
    contributors := Fetched.ok ["alice"],
    commits := Fetched.ok [],
    releases := Fetched.ok [],
    issues := Fetched.ok [],
    pulls := Fetched.ok [],
    readme := Option.none,
    package_json := Option.none,
    requirements_txt := Option.none,
    workflows := [],
    enhanced := Except.error "timeout",
    enhancedCalls := 0,
    tree_resp := Fetched.errorDict "timeout",
    manifest_probe := fun _ => false,
    bp_probe := ProbeOutcome.errResp,
    install_section := Option.none }

def envLang : Env :=
  { env0 with languages := Fetched.errorDict "rate_limited" }

/-- `env0` with a well-typed but zero-byte languages payload, as the provider
returns for a repository whose only language is recorded with 0 bytes. -/
def envZero : Env :=
  { env0 with languages := Fetched.ok [("X", 0)] }

/-! ### Theorems -/

theorem strContains_pyLower_components (d : String)
    (h : strContains d "src/components" = true) :
    strContains (pyLower d) "components" = true := by
  simp only [strContains, decide_eq_true_eq] at h ⊢
  have h2 : ("src/components".toList.map Char.toLower) <:+: (d.toList.map Char.toLower) :=
    h.map Char.toLower
  have h3 : "components".toList <:+: ("src/components".toList.map Char.toLower) := by decide
  exact h3.trans h2

theorem componentCond_eq (dirs : List String) :
    (dirs.any (fun d => strContains (pyLower d) "components") ||
     dirs.any (fun d => strContains d "src/components")) =
    dirs.any (fun d => strContains (pyLower d) "components") := by
  cases hA : dirs.any (fun d => strContains (pyLower d) "components")
  · cases hB : dirs.any (fun d => strContains d "src/components")
    · rfl
    · exfalso
      simp only [List.any_eq_true] at hB
      simp only [List.any_eq_false] at hA
      obtain ⟨d, hd, hc⟩ := hB
      exact hA d hd (strContains_pyLower_components d hc)
  · simp

/-- C7: the architecture detector equals the spec's ordered first-match rule list (MVC, Microservices, DDD, Component-Based, API-First, Monolithic, Modular, fallback), and any directory set containing controller, model and view directories is labelled MVC. -/
theorem C7_test :
    (∀ t : TreeAnalysis, detect_architecture_pattern t = architectureRulesSpec t) ∧
    (∀ t : TreeAnalysis,
      (alKeys t.directory_structure).any (fun d => strContains (pyLower d) "controller") = true →
      (alKeys t.directory_structure).any (fun d => strContains (pyLower d) "model") = true →
      (alKeys t.directory_structure).any (fun d => strContains (pyLower d) "view") = true →
      detect_architecture_pattern t = "MVC (Model-View-Controller)") := by
  constructor
  · intro t
    unfold detect_architecture_pattern architectureRulesSpec
    simp only [firstMatch]
    rw [componentCond_eq]
  · intro t h1 h2 h3
    unfold detect_architecture_pattern
    simp [h1, h2, h3]

/-- C7 witness: a tree with controllers/models/views and also a services directory is still labelled MVC. -/
theorem C7_test_witness :
    detect_architecture_pattern mvcTree = "MVC (Model-View-Controller)" :=
  C7_test.2 mvcTree (by decide) (by decide) (by decide)

set_option maxHeartbeats 2000000 in
theorem scoreArith (e1 e1' e2 e2' : Prop) [Decidable e1] [Decidable e1']
    [Decidable e2] [Decidable e2'] (h1 : e1 ↔ e1') (h2 : e2 ↔ e2')
    (r1 r2 : ℚ) (rec : Nat) :
    (let score : Int := 50
     let score := if e1 then
        (if r1 < 3/10 then score + 20 else if r1 > 7/10 then score - 20 else score)
      else score
     let score := if e2 then
        (if r2 > 7/10 then score + 15 else if r2 < 3/10 then score - 15 else score)
      else score
     let score := if rec > 5 then score + 15 else score
     max 0 (min 100 score)) =
    (let raw : Int := 50
       + (if e1' ∧ r1 < 3/10 then 20 else 0)
       - (if e1' ∧ r1 > 7/10 then 20 else 0)
       + (if e2' ∧ r2 > 7/10 then 15 else 0)
       - (if e2' ∧ r2 < 3/10 then 15 else 0)
       + (if rec > 5 then 15 else 0)
     max 0 (min 100 raw)) := by
  simp only [← h1, ← h2]
  by_cases he1 : e1 <;> by_cases he2 : e2 <;>
    simp only [he1, he2, true_and, false_and, if_true, if_false, ite_true, ite_false] <;>
    split_ifs <;>
    first
      | (exfalso; linarith)
      | (simp only [max_def, min_def]; split_ifs <;> omega)

set_option maxHeartbeats 4000000 in
theorem healthEq (now : Int) (issues : List Issue) (prs : List Pull) :
    _calculate_health_score now issues prs = healthScoreSpec now issues prs := by
  unfold _calculate_health_score healthScoreSpec
  exact scoreArith ((!issues.isEmpty) = true) (issues ≠ []) ((!prs.isEmpty) = true) (prs ≠ [])
    (by simp [List.isEmpty_iff]) (by simp [List.isEmpty_iff])
    (((issues.filter (fun i => i.state = "open")).length : ℚ) / (issues.length : ℚ))
    (((prs.filter (fun p => p.merged_at.isSome)).length : ℚ) / (prs.length : ℚ))
    ((issues.filter (fun i => i.updated_at > now - 30 * 86400)).length)

theorem C8inst : _calculate_health_score 0 healthIssues10 healthPulls10 = 100 := by
  with_unfolding_all rfl

/-- C8: the health scorer agrees with the spec's formula (base 50, ±20 on open-issue ratio, ±15 on merged-PR ratio, +15 on recent activity, clamped to [0, 100]) on every input, and on 10 closed issues and 10 merged PRs with recent activity it returns exactly 100. -/
theorem C8test :
    (∀ (now : Int) (issues : List Issue) (prs : List Pull),
      _calculate_health_score now issues prs = healthScoreSpec now issues prs) ∧
    _calculate_health_score 0 healthIssues10 healthPulls10 = 100 :=
  ⟨healthEq, C8inst⟩

/-- C9 counterexample: ratio exactly 5 gets the label "Minimal (<5% test files)". -/
theorem C9cx :
    (analyze_code_quality_detailed ProbeOutcome.errResp c9Tree).test_file_ratio = 5 ∧
    (analyze_code_quality_detailed ProbeOutcome.errResp c9Tree).test_coverage =
      "Minimal (<5% test files)" := by
  constructor <;> with_unfolding_all rfl

/-- C9 amended: for every tree with a positive file count the ratio is `round1(test_files / total_files * 100)`, and the tiers are the half-open intervals (-inf, 5] Minimal, (5, 15] Low, (15, 30] Medium, (30, inf) High: each boundary value maps to the lower tier. -/
theorem C9amended (bp : ProbeOutcome) (t : TreeAnalysis) (h : 0 < t.total_files) :
    (analyze_code_quality_detailed bp t).test_file_ratio =
      round1 (((t.test_files.length : ℚ) / (t.total_files : ℚ)) * 100) ∧
    ((analyze_code_quality_detailed bp t).test_file_ratio ≤ 5 →
      (analyze_code_quality_detailed bp t).test_coverage = "Minimal (<5% test files)") ∧
    (5 < (analyze_code_quality_detailed bp t).test_file_ratio →
      (analyze_code_quality_detailed bp t).test_file_ratio ≤ 15 →
      (analyze_code_quality_detailed bp t).test_coverage = "Low (5-15% test files)") ∧
    (15 < (analyze_code_quality_detailed bp t).test_file_ratio →
      (analyze_code_quality_detailed bp t).test_file_ratio ≤ 30 →
      (analyze_code_quality_detailed bp t).test_coverage = "Medium (15-30% test files)") ∧
    (30 < (analyze_code_quality_detailed bp t).test_file_ratio →
      (analyze_code_quality_detailed bp t).test_coverage = "High (>30% test files)") := by
  have hratio : (analyze_code_quality_detailed bp t).test_file_ratio =
      round1 (((t.test_files.length : ℚ) / (t.total_files : ℚ)) * 100) := by
    simp only [analyze_code_quality_detailed, if_pos h, gt_iff_lt]
  have hcov : (analyze_code_quality_detailed bp t).test_coverage =
      (if (analyze_code_quality_detailed bp t).test_file_ratio > 30 then "High (>30% test files)"
       else if (analyze_code_quality_detailed bp t).test_file_ratio > 15 then "Medium (15-30% test files)"
       else if (analyze_code_quality_detailed bp t).test_file_ratio > 5 then "Low (5-15% test files)"
       else "Minimal (<5% test files)") := by
    simp only [analyze_code_quality_detailed, if_pos h, gt_iff_lt]
  refine ⟨hratio, ?_, ?_, ?_, ?_⟩ <;> intros <;> rw [hcov] <;> split_ifs <;>
    first | rfl | linarith

/-- C9 amended witness: the concrete 20-file tree instantiates the amended tier map at ratio 5. -/
theorem C9amended_witness :
    0 < c9Tree.total_files ∧
    (analyze_code_quality_detailed ProbeOutcome.errResp c9Tree).test_file_ratio ≤ 5 ∧
    (analyze_code_quality_detailed ProbeOutcome.errResp c9Tree).test_coverage =
      "Minimal (<5% test files)" :=
  ⟨by decide, by with_unfolding_all decide,
   (C9amended ProbeOutcome.errResp c9Tree (by decide)).2.1
     (by with_unfolding_all decide)⟩

/-- C6: the timeout guard returns the work's own value when the work completes, an `error`/`partial: true` dict when the work raised, and a timeout-tagged `partial: true` dict when the budget elapsed; it never raises (it is a total function into `Val`). -/
theorem C6test (seconds : Nat) (outcome : WorkOutcome) :
    (∀ v, outcome = WorkOutcome.completed v → timeout_decorator seconds outcome = v) ∧
    (∀ msg, outcome = WorkOutcome.raised msg →
      timeout_decorator seconds outcome =
        Val.dict [("error", Val.str msg), ("partial", Val.bool true)]) ∧
    (outcome = WorkOutcome.timedOut →
      timeout_decorator seconds outcome =
        Val.dict [("error", Val.str s!"Analysis timeout after {seconds} seconds"),
                  ("partial", Val.bool true)]) := by
  refine ⟨?_, ?_, ?_⟩ <;> intros <;> subst_eqs <;> rfl

/-- C6 witness: the timed-out outcome at a 5-second budget yields the tagged degraded dict. -/
theorem C6test_witness :
    timeout_decorator 5 WorkOutcome.timedOut =
      Val.dict [("error", Val.str "Analysis timeout after 5 seconds"),
                ("partial", Val.bool true)] :=
  (C6test 5 WorkOutcome.timedOut).2.2 rfl

theorem alGet_alSet_self {α : Type} (l : List (String × α)) (k : String) (v : α) :
    alGet (alSet l k v) k = some v := by
  induction l with
  | nil => simp [alSet, alGet]
  | cons p rest ih =>
    obtain ⟨k', w⟩ := p
    by_cases h : k' = k <;> simp [alSet, alGet, h, ih]

theorem alGet_alSet_ne {α : Type} (l : List (String × α)) (k k' : String) (v : α)
    (h : k ≠ k') : alGet (alSet l k v) k' = alGet l k' := by
  induction l with
  | nil => simp [alSet, alGet, h]
  | cons p rest ih =>
    obtain ⟨k0, w⟩ := p
    by_cases h0 : k0 = k <;> simp [alSet, alGet, h0, h, ih]

theorem alGet_alDel_self {α : Type} (l : List (String × α)) (k : String) :
    alGet (alDel l k) k = Option.none := by
  induction l with
  | nil => simp [alDel, alGet]
  | cons p rest ih =>
    obtain ⟨k0, w⟩ := p
    by_cases h0 : k0 = k <;> simp [alDel, alGet, h0, ih]

theorem set_projections (c : RepositoryCache) (now : Int) (key : String)
    (v : Val) (T : Int) (hT : T ≠ 0) :
    (c.set now key v (some T)).cache =
      alSet (if c.cache.length ≥ c.max_size then c.evict_oldest else c).cache key
        { value := v, expires_at := now + T, created_at := now } ∧
    (c.set now key v (some T)).access_times =
      alSet (if c.cache.length ≥ c.max_size then c.evict_oldest else c).access_times key now ∧
    (c.set now key v (some T)).hits = c.hits ∧
    (c.set now key v (some T)).misses = c.misses ∧
    (c.set now key v (some T)).max_size = c.max_size ∧
    (c.set now key v (some T)).default_ttl = c.default_ttl := by
  unfold RepositoryCache.set RepositoryCache.evict_oldest
  split_ifs with h <;>
    first
    | (cases hA : c.access_times with
       | nil => simp [hT]
       | cons p rest => obtain ⟨k0, t0⟩ := p; simp [hT])
    | simp [hT]

/-- C4: cache TTL semantics of `RepositoryCache.get`/`set` with `ttl = T ≠ 0`: before `now + T` the key is retrievable, the access time is refreshed and `hits` is bumped; at or after `now + T` the lookup misses, deletes the entry as a side effect and bumps `misses`; a lookup of an absent key misses and bumps `misses`. -/
theorem C4test (c : RepositoryCache) (key : String) (v : Val)
    (T t0 t1 : Int) (hT : T ≠ 0) :
    (t1 < t0 + T →
      ((c.set t0 key v (some T)).get t1 key).1 = some v ∧
      ((c.set t0 key v (some T)).get t1 key).2.hits = (c.set t0 key v (some T)).hits + 1 ∧
      alGet ((c.set t0 key v (some T)).get t1 key).2.access_times key = some t1) ∧
    (t0 + T ≤ t1 →
      ((c.set t0 key v (some T)).get t1 key).1 = Option.none ∧
      alGet ((c.set t0 key v (some T)).get t1 key).2.cache key = Option.none ∧
      alGet ((c.set t0 key v (some T)).get t1 key).2.access_times key = Option.none ∧
      ((c.set t0 key v (some T)).get t1 key).2.misses =
        (c.set t0 key v (some T)).misses + 1) ∧
    (alGet c.cache key = Option.none →
      (c.get t1 key).1 = Option.none ∧ (c.get t1 key).2.misses = c.misses + 1) := by
  obtain ⟨hc, ha, hh, hm, _, _⟩ := set_projections c t0 key v T hT
  refine ⟨?_, ?_, ?_⟩
  · intro h1
    unfold RepositoryCache.get
    rw [hc, alGet_alSet_self]
    simp only [if_pos h1]
    refine ⟨by trivial, by trivial, ?_⟩
    exact alGet_alSet_self _ _ _
  · intro h1
    unfold RepositoryCache.get
    rw [hc, alGet_alSet_self]
    simp only [not_lt.mpr h1, if_false, ite_false]
    refine ⟨by trivial, ?_, ?_, by trivial⟩ <;>
      exact alGet_alDel_self _ _
  · intro h1
    unfold RepositoryCache.get
    rw [h1]
    exact ⟨rfl, rfl⟩

/-- C4 witness: the three TTL facts at a concrete cache, key and `T = 50`. -/
theorem C4test_witness :
    (3 : Int) < 0 + 10 ∧ (10 : Int) ≠ 0 ∧
    ((c4cache.set 0 "k" (Val.str "r") (some 10)).get 3 "k").1 = some (Val.str "r") ∧
    ((c4cache.set 0 "k" (Val.str "r") (some 10)).get 10 "k").1 = Option.none := by
  refine ⟨by norm_num, by norm_num, ?_, ?_⟩
  · exact ((C4test c4cache "k" (Val.str "r") 10 0 3 (by norm_num)).1 (by norm_num)).1
  · exact ((C4test c4cache "k" (Val.str "r") 10 0 10 (by norm_num)).2.1 (by norm_num)).1

theorem insertSeq_append (v : Val) (c : RepositoryCache)
    (l1 l2 : List (String × Int)) :
    insertSeq v c (l1 ++ l2) = insertSeq v (insertSeq v c l1) l2 := by
  induction l1 generalizing c with
  | nil => rfl
  | cons p rest ih =>
    obtain ⟨k, t⟩ := p
    simp [insertSeq, ih]

theorem alSet_absent {α : Type} (l : List (String × α)) (k : String) (v : α)
    (h : alGet l k = Option.none) : alSet l k v = l ++ [(k, v)] := by
  induction l with
  | nil => rfl
  | cons p rest ih =>
    obtain ⟨k0, w⟩ := p
    by_cases h0 : k0 = k
    · simp [alGet, h0] at h
    · simp only [alGet, h0, if_neg, if_false, ite_false] at h
      simp [alSet, h0, ih h]

theorem alGet_append_none {α : Type} (l1 l2 : List (String × α)) (k : String)
    (h1 : alGet l1 k = Option.none) (h2 : alGet l2 k = Option.none) :
    alGet (l1 ++ l2) k = Option.none := by
  induction l1 with
  | nil => simpa using h2
  | cons p rest ih =>
    obtain ⟨k0, w⟩ := p
    by_cases h0 : k0 = k
    · simp [alGet, h0] at h1
    · simp only [alGet, h0, ite_false, if_false, if_neg] at h1 ⊢
      simp [h0]
      exact ih h1

theorem alGet_singleton_ne {α : Type} (k k' : String) (v : α) (h : k ≠ k') :
    alGet [(k, v)] k' = Option.none := by
  simp [alGet, h]

theorem insertSeq_under (v : Val) (dttl : Int) (c : RepositoryCache)
    (l : List (String × Int))
    (hdttl : c.default_ttl = dttl)
    (hlen : c.cache.length + l.length ≤ c.max_size)
    (hcdisj : ∀ p ∈ l, alGet c.cache p.1 = Option.none)
    (hadisj : ∀ p ∈ l, alGet c.access_times p.1 = Option.none)
    (hnodup : (l.map Prod.fst).Nodup) :
    (insertSeq v c l).cache = c.cache ++ l.map (seqEntry v dttl) ∧
    (insertSeq v c l).access_times = c.access_times ++ l.map (fun p => (p.1, p.2)) ∧
    (insertSeq v c l).max_size = c.max_size ∧
    (insertSeq v c l).default_ttl = c.default_ttl := by
  induction l generalizing c with
  | nil => simp [insertSeq]
  | cons p rest ih =>
    obtain ⟨k, t⟩ := p
    have hlt : ¬ (c.cache.length ≥ c.max_size) := by
      simp only [List.length_cons] at hlen; omega
    have hset : (c.set t k v Option.none) =
        { c with cache := alSet c.cache k ⟨v, t + c.default_ttl, t⟩,
                 access_times := alSet c.access_times k t } := by
      unfold RepositoryCache.set
      rw [if_neg hlt]
    have hkc : alGet c.cache k = Option.none := hcdisj (k, t) (by simp)
    have hka : alGet c.access_times k = Option.none := hadisj (k, t) (by simp)
    have hknotin : k ∉ rest.map Prod.fst := by
      simp only [List.map_cons, List.nodup_cons] at hnodup
      exact hnodup.1
    have hrestnodup : (rest.map Prod.fst).Nodup := by
      simp only [List.map_cons, List.nodup_cons] at hnodup
      exact hnodup.2
    have step := ih (c.set t k v Option.none)
      (by rw [hset]; exact hdttl)
      (by rw [hset]
          simp only [alSet_absent c.cache k _ hkc, List.length_append,
            List.length_cons, List.length_nil, List.length_cons] at *
          omega)
      (by intro q hq
          rw [hset]
          simp only
          have hqk : q.1 ≠ k := by
            intro he
            exact hknotin (he ▸ List.mem_map_of_mem Prod.fst hq)
          rw [alSet_absent c.cache k _ hkc]
          exact alGet_append_none _ _ _ (hcdisj q (by simp [hq]))
            (alGet_singleton_ne _ _ _ (fun he => hqk he.symm)))
      (by intro q hq
          rw [hset]
          simp only
          have hqk : q.1 ≠ k := by
            intro he
            exact hknotin (he ▸ List.mem_map_of_mem Prod.fst hq)
          rw [alSet_absent c.access_times k _ hka]
          exact alGet_append_none _ _ _ (hadisj q (by simp [hq]))
            (alGet_singleton_ne _ _ _ (fun he => hqk he.symm)))
      hrestnodup
    obtain ⟨sc, sa, sm, sd⟩ := step
    have hstep : insertSeq v c ((k, t) :: rest) = insertSeq v (c.set t k v Option.none) rest := rfl
    rw [hstep]
    refine ⟨?_, ?_, ?_, ?_⟩
    · rw [sc, hset]
      simp only [alSet_absent c.cache k _ hkc]
      simp [seqEntry, hdttl]
    · rw [sa, hset]
      simp only [alSet_absent c.access_times k _ hka]
      simp
    · rw [sm, hset]
    · rw [sd, hset]

theorem findOldest_head (k : String) (t : Int) (rest : List (String × Int))
    (h : ∀ p ∈ rest, t < p.2) : findOldest k t rest = k := by
  induction rest generalizing k t with
  | nil => rfl
  | cons q r ih =>
    obtain ⟨k', t'⟩ := q
    have ht' : t < t' := h (k', t') (by simp)
    unfold findOldest
    rw [if_neg (by omega)]
    exact ih k t (fun p hp => h p (by simp [hp]))

theorem alDel_cons_self {α : Type} (k : String) (v : α) (rest : List (String × α)) :
    alDel ((k, v) :: rest) k = alDel rest k := by
  simp [alDel]

theorem alDel_absent {α : Type} (l : List (String × α)) (k : String)
    (h : alGet l k = Option.none) : alDel l k = l := by
  induction l with
  | nil => rfl
  | cons p rest ih =>
    obtain ⟨k0, w⟩ := p
    by_cases h0 : k0 = k
    · simp [alGet, h0] at h
    · simp only [alGet, h0, ite_false, if_false, if_neg] at h
      simp [alDel, h0, ih h]

theorem alGet_seqEntry_mem (v : Val) (dttl : Int) (l : List (String × Int))
    (hnodup : (l.map Prod.fst).Nodup) (p : String × Int) (hp : p ∈ l) :
    alGet (l.map (seqEntry v dttl)) p.1 = some (seqEntry v dttl p).2 := by
  induction l with
  | nil => simp at hp
  | cons q rest ih =>
    simp only [List.map_cons, List.nodup_cons] at hnodup
    rcases List.mem_cons.mp hp with he | hm
    · subst he
      simp [alGet, seqEntry]
    · have hne : p.1 ≠ q.1 := by
        intro he
        exact hnodup.1 (he ▸ List.mem_map_of_mem Prod.fst hm)
      simp only [List.map_cons, alGet, seqEntry]
      rw [if_neg (fun he => hne he.symm)]
      exact ih hnodup.2 hm

theorem alGet_map_absent (v : Val) (dttl : Int) (l : List (String × Int))
    (k : String) (h : k ∉ l.map Prod.fst) :
    alGet (l.map (seqEntry v dttl)) k = Option.none := by
  induction l with
  | nil => rfl
  | cons q rest ih =>
    simp only [List.map_cons, List.mem_cons, not_or] at h
    simp only [List.map_cons, alGet, seqEntry]
    rw [if_neg (fun he => h.1 he.symm)]
    exact ih h.2

theorem alGet_accMap_mem (l : List (String × Int))
    (hnodup : (l.map Prod.fst).Nodup) (p : String × Int) (hp : p ∈ l) :
    alGet (l.map (fun q => (q.1, q.2))) p.1 = some p.2 := by
  induction l with
  | nil => simp at hp
  | cons q rest ih =>
    simp only [List.map_cons, List.nodup_cons] at hnodup
    rcases List.mem_cons.mp hp with he | hm
    · subst he
      simp [alGet]
    · have hne : p.1 ≠ q.1 := by
        intro he
        exact hnodup.1 (he ▸ List.mem_map_of_mem Prod.fst hm)
      simp only [List.map_cons, alGet]
      rw [if_neg (fun he => hne he.symm)]
      exact ih hnodup.2 hm

theorem alGet_accMap_absent (l : List (String × Int)) (k : String)
    (h : k ∉ l.map Prod.fst) :
    alGet (l.map (fun q => (q.1, q.2))) k = Option.none := by
  induction l with
  | nil => rfl
  | cons q rest ih =>
    simp only [List.map_cons, List.mem_cons, not_or] at h
    simp only [List.map_cons, alGet]
    rw [if_neg (fun he => h.1 he.symm)]
    exact ih h.2

theorem evict_head (c : RepositoryCache) (k0 : String) (t0 : Int)
    (rest : List (String × Int))
    (hA : c.access_times = (k0, t0) :: rest) (hm : ∀ p ∈ rest, t0 < p.2) :
    c.evict_oldest =
      { c with cache := alDel c.cache k0, access_times := alDel c.access_times k0 } := by
  simp only [RepositoryCache.evict_oldest, hA, findOldest_head k0 t0 rest hm]

/-- C5: eviction policy.  Filling an empty cache of capacity `N` with `N` distinct keys at increasing access times and then inserting one more key evicts exactly the oldest-accessed (first-inserted) key: it is gone from both maps, every other key keeps its entry, and the new key is stored. -/
theorem C5test (N : Nat) (hN : 1 ≤ N) (v : Val) (dttl : Int)
    (p0 : String × Int) (rest : List (String × Int))
    (hlen : rest.length = N)
    (hnodup : ((p0 :: rest).map Prod.fst).Nodup)
    (hmono : (p0 :: rest).Pairwise (fun p q => p.2 < q.2))
    (tq : Int) (hfresh : ∀ p ∈ rest, tq < p.2 + dttl) :
    alKeys (insertSeq v (RepositoryCache.init N dttl) (p0 :: rest)).cache =
      rest.map Prod.fst ∧
    (insertSeq v (RepositoryCache.init N dttl) (p0 :: rest)).cache.length = N ∧
    (∀ p ∈ rest,
      ((insertSeq v (RepositoryCache.init N dttl) (p0 :: rest)).get tq p.1).1 = some v) ∧
    ((insertSeq v (RepositoryCache.init N dttl) (p0 :: rest)).get tq p0.1).1 =
      Option.none := by
  have hrne : rest ≠ [] := by
    intro h
    rw [h] at hlen
    simp at hlen
    omega
  obtain ⟨last, rest1, hsplit⟩ : ∃ last rest1, rest = rest1 ++ [last] :=
    ⟨rest.getLast hrne, rest.dropLast, (List.dropLast_append_getLast hrne).symm⟩
  have hlen1 : rest1.length + 1 = N := by
    rw [hsplit] at hlen
    simpa using hlen
  have hnodup' : (p0.1 :: (rest1.map Prod.fst ++ [last.1])).Nodup := by
    have h := hnodup
    rw [hsplit] at h
    simpa using h
  have hp0rest : p0.1 ∉ rest.map Prod.fst := by
    simp only [List.map_cons, List.nodup_cons] at hnodup
    exact hnodup.1
  have hrestnodup : (rest.map Prod.fst).Nodup := by
    simp only [List.map_cons, List.nodup_cons] at hnodup
    exact hnodup.2
  have hfrontnodup : ((p0 :: rest1).map Prod.fst).Nodup := by
    simp only [List.map_cons, List.nodup_cons]
    constructor
    · intro hmem
      exact (List.nodup_cons.mp hnodup').1 (by simp [hmem])
    · have h := (List.nodup_cons.mp hnodup').2
      exact (List.nodup_append.mp h).1
  have hlastrest1 : last.1 ∉ rest1.map Prod.fst := by
    have h := (List.nodup_cons.mp hnodup').2
    intro hmem
    rcases List.nodup_append.mp h with ⟨_, _, hdisj⟩
    exact hdisj hmem (by simp)
  have hmono0 : ∀ p ∈ rest, p0.2 < p.2 := (List.pairwise_cons.mp hmono).1
  have hmono1 : ∀ p ∈ rest1, p0.2 < p.2 := by
    intro p hp
    exact hmono0 p (by rw [hsplit]; exact List.mem_append_left _ hp)
  have hfront := insertSeq_under v dttl (RepositoryCache.init N dttl) (p0 :: rest1)
    rfl (by simp [RepositoryCache.init]; omega)
    (fun q _ => rfl) (fun q _ => rfl) hfrontnodup
  obtain ⟨fc0, fa0, fm0, fd0⟩ := hfront
  have fc : (insertSeq v (RepositoryCache.init N dttl) (p0 :: rest1)).cache =
      (p0 :: rest1).map (seqEntry v dttl) :=
    fc0.trans (by simp [RepositoryCache.init])
  have fa : (insertSeq v (RepositoryCache.init N dttl) (p0 :: rest1)).access_times =
      (p0 :: rest1).map (fun q => (q.1, q.2)) :=
    fa0.trans (by simp [RepositoryCache.init])
  have fm : (insertSeq v (RepositoryCache.init N dttl) (p0 :: rest1)).max_size = N :=
    fm0.trans (by simp [RepositoryCache.init])
  have fd : (insertSeq v (RepositoryCache.init N dttl) (p0 :: rest1)).default_ttl =
      dttl :=
    fd0.trans (by simp [RepositoryCache.init])
  have hfinal : insertSeq v (RepositoryCache.init N dttl) (p0 :: rest) =
      (insertSeq v (RepositoryCache.init N dttl) (p0 :: rest1)).set
        last.2 last.1 v Option.none := by
    rw [show p0 :: rest = (p0 :: rest1) ++ [last] by rw [hsplit]; rfl, insertSeq_append]
    rfl
  have hc2full : (insertSeq v (RepositoryCache.init N dttl) (p0 :: rest1)).cache.length ≥
      (insertSeq v (RepositoryCache.init N dttl) (p0 :: rest1)).max_size := by
    rw [fc, fm]
    simp only [List.length_map, List.length_cons]
    omega
  have hevict : (insertSeq v (RepositoryCache.init N dttl) (p0 :: rest1)).evict_oldest =
      { insertSeq v (RepositoryCache.init N dttl) (p0 :: rest1) with
        cache := alDel (insertSeq v (RepositoryCache.init N dttl) (p0 :: rest1)).cache p0.1,
        access_times :=
          alDel (insertSeq v (RepositoryCache.init N dttl) (p0 :: rest1)).access_times p0.1 } := by
    refine evict_head _ p0.1 p0.2 (rest1.map (fun q => (q.1, q.2))) ?_ ?_
    · rw [fa]
      simp
    · intro p hp
      simp only [List.mem_map] at hp
      obtain ⟨q, hq, he⟩ := hp
      rw [← he]
      exact hmono1 q hq
  have hevcache :
      (insertSeq v (RepositoryCache.init N dttl) (p0 :: rest1)).evict_oldest.cache =
        rest1.map (seqEntry v dttl) := by
    rw [hevict]
    simp only [fc]
    rw [show (p0 :: rest1).map (seqEntry v dttl) =
          (p0.1, (seqEntry v dttl p0).2) :: rest1.map (seqEntry v dttl) by
        simp [seqEntry]]
    rw [alDel_cons_self]
    exact alDel_absent _ _ (alGet_map_absent v dttl rest1 p0.1
      (by intro hm0; exact hp0rest (by rw [hsplit]; simp [hm0])))
  have hevacc :
      (insertSeq v (RepositoryCache.init N dttl) (p0 :: rest1)).evict_oldest.access_times =
        rest1.map (fun q => (q.1, q.2)) := by
    rw [hevict]
    simp only [fa]
    rw [show (p0 :: rest1).map (fun q => (q.1, q.2)) =
          (p0.1, p0.2) :: rest1.map (fun q => (q.1, q.2)) by simp]
    rw [alDel_cons_self]
    exact alDel_absent _ _ (alGet_accMap_absent rest1 p0.1
      (by intro hm0; exact hp0rest (by rw [hsplit]; simp [hm0])))
  have hevd :
      (insertSeq v (RepositoryCache.init N dttl) (p0 :: rest1)).evict_oldest.default_ttl =
        dttl := by
    rw [hevict]
    exact fd
  have hsetres :
      ((insertSeq v (RepositoryCache.init N dttl) (p0 :: rest1)).set
          last.2 last.1 v Option.none).cache = rest.map (seqEntry v dttl) ∧
      ((insertSeq v (RepositoryCache.init N dttl) (p0 :: rest1)).set
          last.2 last.1 v Option.none).access_times =
        rest.map (fun q => (q.1, q.2)) := by
    unfold RepositoryCache.set
    rw [if_pos hc2full]
    constructor
    · simp only [hevcache, hevd]
      rw [alSet_absent _ _ _ (alGet_map_absent v dttl rest1 last.1 hlastrest1)]
      rw [hsplit]
      simp [seqEntry]
    · simp only [hevacc]
      rw [alSet_absent _ _ _ (alGet_accMap_absent rest1 last.1 hlastrest1)]
      rw [hsplit]
      simp
  rw [hfinal]
  obtain ⟨hfin_c, hfin_a⟩ := hsetres
  refine ⟨?_, ?_, ?_, ?_⟩
  · rw [hfin_c]
    simp [alKeys, seqEntry, List.map_map, Function.comp]
  · rw [hfin_c]
    simp [hlen]
  · intro p hp
    unfold RepositoryCache.get
    rw [hfin_c, alGet_seqEntry_mem v dttl rest hrestnodup p hp]
    simp only [seqEntry]
    rw [if_pos (hfresh p hp)]
  · unfold RepositoryCache.get
    rw [hfin_c, alGet_map_absent v dttl rest p0.1 hp0rest]

/-- C5 witness: capacity 2, keys "a", "b" then "c": "a" is evicted, "b" kept, "c" stored. -/
theorem C5test_witness :
    1 ≤ 2 ∧
    alKeys (insertSeq (Val.str "x") (RepositoryCache.init 2 900)
      [("a", 0), ("b", 1), ("c", 2)]).cache = ["b", "c"] ∧
    ((insertSeq (Val.str "x") (RepositoryCache.init 2 900)
      [("a", 0), ("b", 1), ("c", 2)]).get 2 "b").1 = some (Val.str "x") ∧
    ((insertSeq (Val.str "x") (RepositoryCache.init 2 900)
      [("a", 0), ("b", 1), ("c", 2)]).get 2 "a").1 = Option.none := by
  have h := C5test 2 (by norm_num) (Val.str "x") 900 ("a", 0) [("b", 1), ("c", 2)]
    rfl (by decide) (by decide) 2 (by decide)
  exact ⟨by norm_num, h.1, h.2.2.1 ("b", 1) (by simp), h.2.2.2⟩

theorem alGet_some_mem_keys {α : Type} (l : List (String × α)) (k : String) (w : α)
    (h : alGet l k = some w) : k ∈ alKeys l := by
  induction l with
  | nil => simp [alGet] at h
  | cons p rest ih =>
    obtain ⟨k0, w0⟩ := p
    by_cases h0 : k0 = k
    · simp [alKeys, h0]
    · simp only [alGet, h0, if_false, ite_false, if_neg] at h
      simp [alKeys] at ih ⊢
      exact Or.inr (ih h)

theorem mem_keys_alGet_isSome {α : Type} (l : List (String × α)) (k : String)
    (h : k ∈ alKeys l) : ∃ w, alGet l k = some w := by
  induction l with
  | nil => simp [alKeys] at h
  | cons p rest ih =>
    obtain ⟨k0, w0⟩ := p
    by_cases h0 : k0 = k
    · exact ⟨w0, by simp [alGet, h0]⟩
    · simp only [alKeys, List.map_cons, List.mem_cons] at h
      rcases h with he | hm
      · exact absurd he.symm h0
      · obtain ⟨w, hw⟩ := ih hm
        exact ⟨w, by simp [alGet, h0, hw]⟩

theorem alKeys_alSet_mem {α : Type} (l : List (String × α)) (k : String) (v w : α)
    (h : alGet l k = some w) : alKeys (alSet l k v) = alKeys l := by
  induction l with
  | nil => simp [alGet] at h
  | cons p rest ih =>
    obtain ⟨k0, w0⟩ := p
    by_cases h0 : k0 = k
    · simp [alSet, alKeys, h0]
    · simp only [alGet, h0, if_false, ite_false, if_neg] at h
      simp only [alSet, h0, ite_false, if_false, if_neg, alKeys, List.map_cons,
        List.cons.injEq, true_and]
      simpa [alKeys] using ih h

theorem alKeys_alSet_congr {α β : Type} (l1 : List (String × α)) (l2 : List (String × β))
    (h : alKeys l1 = alKeys l2) (k : String) (v : α) (w : β) :
    alKeys (alSet l1 k v) = alKeys (alSet l2 k w) := by
  induction l1 generalizing l2 with
  | nil =>
    cases l2 with
    | nil => rfl
    | cons q r => simp [alKeys] at h
  | cons p r1 ih =>
    cases l2 with
    | nil => simp [alKeys] at h
    | cons q r2 =>
      obtain ⟨k1, v1⟩ := p
      obtain ⟨k2, v2⟩ := q
      simp only [alKeys, List.map_cons, List.cons.injEq] at h
      obtain ⟨hk, hr⟩ := h
      subst hk
      by_cases h0 : k1 = k
      · simp [alSet, alKeys, h0, hr]
      · simp only [alSet, h0, if_false, ite_false, if_neg]
        simp only [alKeys, List.map_cons, List.cons.injEq, true_and]
        exact ih r2 hr

theorem alKeys_alDel_congr {α β : Type} (l1 : List (String × α)) (l2 : List (String × β))
    (h : alKeys l1 = alKeys l2) (k : String) :
    alKeys (alDel l1 k) = alKeys (alDel l2 k) := by
  induction l1 generalizing l2 with
  | nil =>
    cases l2 with
    | nil => rfl
    | cons q r => simp [alKeys] at h
  | cons p r1 ih =>
    cases l2 with
    | nil => simp [alKeys] at h
    | cons q r2 =>
      obtain ⟨k1, v1⟩ := p
      obtain ⟨k2, v2⟩ := q
      simp only [alKeys, List.map_cons, List.cons.injEq] at h
      obtain ⟨hk, hr⟩ := h
      subst hk
      by_cases h0 : k1 = k
      · simp only [alDel, h0, if_true, ite_true]
        exact ih r2 hr
      · simp only [alDel, h0, if_false, ite_false, if_neg]
        simp only [alKeys, List.map_cons, List.cons.injEq, true_and]
        exact ih r2 hr

theorem alSet_length_le {α : Type} (l : List (String × α)) (k : String) (v : α) :
    (alSet l k v).length ≤ l.length + 1 := by
  induction l with
  | nil => simp [alSet]
  | cons p rest ih =>
    obtain ⟨k0, w0⟩ := p
    by_cases h0 : k0 = k <;> simp [alSet, h0] <;> omega

theorem alDel_length_le {α : Type} (l : List (String × α)) (k : String) :
    (alDel l k).length ≤ l.length := by
  induction l with
  | nil => simp [alDel]
  | cons p rest ih =>
    obtain ⟨k0, w0⟩ := p
    by_cases h0 : k0 = k <;> simp [alDel, h0] <;> omega

theorem alDel_length_lt {α : Type} (l : List (String × α)) (k : String)
    (h : k ∈ alKeys l) : (alDel l k).length < l.length := by
  induction l with
  | nil => simp [alKeys] at h
  | cons p rest ih =>
    obtain ⟨k0, w0⟩ := p
    by_cases h0 : k0 = k
    · simp only [alDel, h0, if_true, ite_true]
      have := alDel_length_le rest k
      simp only [List.length_cons]
      omega
    · simp only [alKeys, List.map_cons, List.mem_cons] at h
      rcases h with he | hm
      · exact absurd he.symm h0
      · simp only [alDel, h0, if_false, ite_false, if_neg, List.length_cons]
        have := ih hm
        omega

theorem findOldest_mem (k : String) (t : Int) (rest : List (String × Int)) :
    findOldest k t rest ∈ k :: rest.map Prod.fst := by
  induction rest generalizing k t with
  | nil => simp [findOldest]
  | cons q r ih =>
    obtain ⟨k', t'⟩ := q
    unfold findOldest
    by_cases h : t' < t
    · simp only [h, if_true, ite_true]
      have := ih k' t'
      simp only [List.map_cons]
      rcases List.mem_cons.mp this with he | hm
      · simp [he]
      · simp [hm]
    · simp only [h, if_false, ite_false]
      have := ih k t
      simp only [List.map_cons]
      rcases List.mem_cons.mp this with he | hm
      · simp [he]
      · simp [hm]

theorem evict_fields (c : RepositoryCache) :
    c.evict_oldest.max_size = c.max_size ∧ c.evict_oldest.default_ttl = c.default_ttl ∧
    c.evict_oldest.hits = c.hits ∧ c.evict_oldest.misses = c.misses := by
  unfold RepositoryCache.evict_oldest
  split
  · exact ⟨rfl, rfl, rfl, rfl⟩
  · exact ⟨rfl, rfl, rfl, rfl⟩

theorem set_proj (c : RepositoryCache) (now : Int) (key : String) (v : Val)
    (ttl : Option Int) :
    (c.set now key v ttl).cache =
      alSet (if c.cache.length ≥ c.max_size then c.evict_oldest else c).cache key
        { value := v,
          expires_at := now + (match ttl with
            | some x => if x = 0 then c.default_ttl else x
            | Option.none => c.default_ttl),
          created_at := now } ∧
    (c.set now key v ttl).access_times =
      alSet (if c.cache.length ≥ c.max_size then c.evict_oldest else c).access_times
        key now ∧
    (c.set now key v ttl).max_size = c.max_size ∧
    (c.set now key v ttl).default_ttl = c.default_ttl := by
  have hms := (evict_fields c).1
  have hdt := (evict_fields c).2.1
  unfold RepositoryCache.set
  split_ifs with h <;>
    refine ⟨?_, rfl, ?_, ?_⟩ <;> simp [hms, hdt]

theorem evict_inv (c : RepositoryCache) (hinv : CacheInv c) :
    CacheInv c.evict_oldest ∧
    (c.cache.length ≥ 1 → c.evict_oldest.cache.length < c.cache.length) := by
  obtain ⟨hlen, hkeys⟩ := hinv
  unfold RepositoryCache.evict_oldest
  cases haa : c.access_times with
  | nil => exact ⟨⟨hlen, hkeys⟩, by
      intro h1
      exfalso
      rw [haa] at hkeys
      simp [alKeys] at hkeys
      rw [hkeys] at h1
      simp at h1⟩
  | cons p rest =>
    obtain ⟨k0, t0⟩ := p
    rw [haa] at hkeys
    have hmem : findOldest k0 t0 rest ∈ alKeys c.cache := by
      rw [hkeys]
      have := findOldest_mem k0 t0 rest
      simpa [alKeys] using this
    constructor
    · constructor
      · have := alDel_length_le c.cache (findOldest k0 t0 rest)
        simp only
        omega
      · simp only
        exact alKeys_alDel_congr c.cache ((k0, t0) :: rest) hkeys _
    · intro _
      simp only
      exact alDel_length_lt c.cache _ hmem

/-- C10: every cache operation (`get`, `set`, `clear`) preserves the invariant `size ≤ max_size` and equality of the two key sets; and `set` on a full cache evicts the oldest-accessed key even when overwriting an existing key, the evicted key differing from the one being set. -/
theorem C10test (c : RepositoryCache) (hinv : CacheInv c) (hpos : 1 ≤ c.max_size)
    (now : Int) (key : String) (v : Val) (ttl : Option Int) :
    CacheInv (c.get now key).2 ∧
    CacheInv (c.set now key v ttl) ∧
    CacheInv c.clear ∧
    (c.cache.length = c.max_size →
      ∀ k0 t0 rest, c.access_times = (k0, t0) :: rest →
        findOldest k0 t0 rest ≠ key →
        alGet (c.set now key v ttl).cache (findOldest k0 t0 rest) = Option.none ∧
        ∃ e, alGet (c.set now key v ttl).cache key = some e ∧
          e.value = v ∧ e.created_at = now) := by
  obtain ⟨hlen, hkeys⟩ := hinv
  obtain ⟨spc, spa, spm, spd⟩ := set_proj c now key v ttl
  refine ⟨?_, ?_, ?_, ?_⟩
  · -- get preserves the invariant
    unfold RepositoryCache.get
    cases hg : alGet c.cache key with
    | none => exact ⟨hlen, hkeys⟩
    | some e =>
      dsimp only
      split_ifs with hexp
      · -- hit: refresh access time of an existing key
        have hckey : key ∈ alKeys c.cache := alGet_some_mem_keys _ _ _ hg
        have hakey : key ∈ alKeys c.access_times := hkeys ▸ hckey
        obtain ⟨w, hw⟩ := mem_keys_alGet_isSome _ _ hakey
        refine ⟨hlen, ?_⟩
        simp only
        rw [alKeys_alSet_mem c.access_times key now w hw]
        exact hkeys
      · -- expired: delete from both maps
        refine ⟨?_, ?_⟩
        · simp only
          have := alDel_length_le c.cache key
          omega
        · simp only
          exact alKeys_alDel_congr c.cache c.access_times hkeys key
  · -- set preserves the invariant
    by_cases hfull : c.cache.length ≥ c.max_size
    · have hev := evict_inv c ⟨hlen, hkeys⟩
      have hevlen : c.evict_oldest.cache.length < c.cache.length :=
        hev.2 (by omega)
      refine ⟨?_, ?_⟩
      · rw [spc, if_pos hfull, spm]
        refine le_trans (alSet_length_le _ _ _) ?_
        omega
      · rw [spc, spa, if_pos hfull]
        exact alKeys_alSet_congr _ _ hev.1.2 key _ _
    · refine ⟨?_, ?_⟩
      · rw [spc, if_neg hfull, spm]
        refine le_trans (alSet_length_le _ _ _) ?_
        omega
      · rw [spc, spa, if_neg hfull]
        exact alKeys_alSet_congr _ _ hkeys key _ _
  · -- clear
    exact ⟨by simp [RepositoryCache.clear], by simp [RepositoryCache.clear, alKeys]⟩
  · -- overwrite in a full cache still evicts the least recently used key
    intro hfullEq k0 t0 rest haa hne
    have hfull : c.cache.length ≥ c.max_size := le_of_eq hfullEq.symm
    have hevict : c.evict_oldest.cache = alDel c.cache (findOldest k0 t0 rest) := by
      unfold RepositoryCache.evict_oldest
      rw [haa]
    rw [spc, if_pos hfull, hevict]
    constructor
    · rw [alGet_alSet_ne _ key _ _ (fun he => hne he.symm)]
      exact alGet_alDel_self _ _
    · exact ⟨_, alGet_alSet_self _ _ _, rfl, rfl⟩

/-- C10 witness: the invariant facts at a concrete full cache of capacity 1. -/
theorem C10test_witness :
    CacheInv c10cache ∧ 1 ≤ c10cache.max_size ∧
    CacheInv (c10cache.set 5 "b" (Val.str "3") Option.none) ∧
    alGet (c10cache.set 5 "b" (Val.str "3") Option.none).cache "a" = Option.none := by
  have hinv : CacheInv c10cache := ⟨by decide, by decide⟩
  refine ⟨hinv, by decide,
    (C10test c10cache hinv (by decide) 5 "b" (Val.str "3") Option.none).2.1,
    ((C10test c10cache hinv (by decide) 5 "b" (Val.str "3") Option.none).2.2.2
      (by decide) "a" 0 [("b", 1)] rfl (by decide)).1⟩

theorem commit_activity_ok (cs : List Commit) (iss : List Issue) (ps : List Pull) :
    ∃ a, analyze_commit_activity (Fetched.ok cs) (Fetched.ok iss) (Fetched.ok ps) =
      Except.ok a :=
  ⟨_, rfl⟩

theorem exc_bindPure {α β : Type} (a : α) (f : α → Except PyErr β) :
    ((pure a : Except PyErr α) >>= f) = f a := rfl

theorem metadata_ok (ri : RepoInfo) (ls : List (String × Nat))
    (contribs : Fetched (List String))
    (hsum : ls = [] ∨ (ls.map Prod.snd).sum ≠ 0) :
    ∃ md, _process_metadata ri (Fetched.ok ls) contribs = Except.ok md ∧
      alKeys md = ["language_composition", "primary_stack", "repository_size_kb",
        "commit_frequency", "contributor_count", "license_type", "dependency_count",
        "latest_release", "created_date", "last_updated", "stars", "forks",
        "watchers"] := by
  cases ls with
  | nil => exact ⟨_, rfl, rfl⟩
  | cons p rest =>
    have hs : (((p :: rest).map Prod.snd).sum ≠ 0) := by
      rcases hsum with h | h
      · exact absurd h (by simp)
      · exact h
    have hc : ¬((!(p :: rest).isEmpty) = true ∧ ((p :: rest).map Prod.snd).sum = 0) :=
      fun hand => hs hand.2
    simp only [_process_metadata, exc_bindPure, if_neg hc]
    exact ⟨_, rfl, rfl⟩

theorem activity_ok (cs : List Commit) (iss : List Issue) (ps : List Pull)
    (rs : List Val) (now : Int) :
    ∃ d, _process_activity (Fetched.ok cs) (Fetched.ok iss) (Fetched.ok ps)
        (Fetched.ok rs) now = Except.ok d ∧
      alKeys d = ["recent_commit_patterns", "commit_frequency_per_day",
        "release_cadence", "open_issues_count", "open_pull_requests",
        "pull_request_velocity", "contributor_activity", "breaking_changes",
        "latest_release"] := by
  cases rs with
  | nil => exact ⟨_, rfl, rfl⟩
  | cons r rs' => exact ⟨_, rfl, rfl⟩

theorem alKeys_nil {α : Type} : alKeys ([] : List (String × α)) = [] := rfl

theorem alKeys_cons {α : Type} (k : String) (v : α) (l : List (String × α)) :
    alKeys ((k, v) :: l) = k :: alKeys l := rfl

theorem alKeys_alSet_gen {α : Type} (d : List (String × α)) (k : String) (v : α) :
    alKeys (alSet d k v) = if k ∈ alKeys d then alKeys d else alKeys d ++ [k] := by
  induction d with
  | nil => simp [alSet, alKeys]
  | cons p rest ih =>
    obtain ⟨k0, w0⟩ := p
    by_cases h0 : k0 = k
    · subst h0
      simp [alSet, alKeys]
    · rw [show alSet ((k0, w0) :: rest) k v = (k0, w0) :: alSet rest k v by
        simp [alSet, h0]]
      rw [show alKeys ((k0, w0) :: alSet rest k v) = k0 :: alKeys (alSet rest k v)
        from rfl]
      rw [show alKeys ((k0, w0) :: rest) = k0 :: alKeys rest from rfl]
      rw [ih]
      by_cases hm : k ∈ alKeys rest
      · have hin : k ∈ k0 :: alKeys rest := by
          simp only [List.mem_cons]
          exact Or.inr hm
        rw [if_pos hm, if_pos hin]
      · have hnotin : k ∉ k0 :: alKeys rest := by
          simp only [List.mem_cons, not_or]
          exact ⟨fun he => h0 he.symm, hm⟩
        rw [if_neg hm, if_neg hnotin]
        simp

theorem alKeys_dSet (d : Dict) (k : String) (v : Val) :
    alKeys (dSet d k v) = if k ∈ alKeys d then alKeys d else alKeys d ++ [k] :=
  alKeys_alSet_gen d k v

theorem dKeys_ite (c : Prop) [Decidable c] (a b : Dict) :
    alKeys (ite c a b) = ite c (alKeys a) (alKeys b) :=
  apply_ite alKeys c a b

theorem debtDeep_keysPre (ri : RepoInfo) (tree : TreeAnalysis) (dd : DepsAnalysis)
    (dq : QualityRecord) (sec : SecurityAnalysis) (now : Int) :
    debtKeys <+: alKeys (_process_technical_debt_deep ri tree dd dq sec now) := by
  simp only [_process_technical_debt_deep, _process_technical_debt, alKeys_dSet,
    dKeys_ite, alKeys_cons, alKeys_nil]
  simp [debtKeys]
  all_goals try split_ifs
  all_goals exact ⟨_, rfl⟩

theorem archDeep_keysPre (pj : Option PackageJson) (rq : Option String)
    (tree : TreeAnalysis) (dd : DepsAnalysis) :
    archKeys <+: alKeys (_process_architecture_deep pj rq tree dd) := by
  simp only [_process_architecture_deep, _process_architecture, alKeys_dSet,
    dKeys_ite, alKeys_cons, alKeys_nil]
  simp [archKeys]
  all_goals try split_ifs
  all_goals exact ⟨_, rfl⟩

theorem qualityDeep_keysPre (w : List Workflow) (dq : QualityRecord) :
    qualityKeys <+: alKeys (_process_quality_metrics_deep w dq) := by
  simp only [_process_quality_metrics_deep, _process_quality_metrics, alKeys_dSet,
    dKeys_ite, alKeys_cons, alKeys_nil]
  simp [qualityKeys]

theorem doc_alKeys (rm : Option String) (inst : Option String) (ri : RepoInfo) :
    alKeys (_process_documentation rm inst ri) = docKeys := rfl

theorem activityDeep_keysPre (cs : List Commit) (iss : List Issue) (ps : List Pull)
    (rs : List Val) (da : Activity) (now : Int) :
    ∃ d, _process_activity_deep (Fetched.ok cs) (Fetched.ok iss) (Fetched.ok ps)
        (Fetched.ok rs) da now = Except.ok d ∧
      activityKeys <+: alKeys d := by
  obtain ⟨b, hb, hbk⟩ := activity_ok cs iss ps rs now
  unfold _process_activity_deep
  rw [hb]
  refine ⟨_, rfl, ?_⟩
  simp only [alKeys_dSet, dKeys_ite, alKeys_cons, alKeys_nil, hbk]
  simp [activityKeys]
  all_goals try split_ifs
  all_goals exact ⟨_, rfl⟩

theorem dGet_dSet_ne (top : Dict) (k s : String) (v : Val) (h : s ≠ k) :
    dGet (dSet top k v) s = dGet top s :=
  alGet_alSet_ne top k s v (fun he => h he.symm)

theorem sectOK_enh (ei : Option Val) (top : Dict) (s : String) (ks : List String)
    (hs : s ≠ "enhanced_insights") (h : sectOK top s ks) :
    sectOK (match ei with
            | some e => if e.truthy then dSet top "enhanced_insights" e else top
            | Option.none => top) s ks := by
  cases ei with
  | none => exact h
  | some e =>
    by_cases ht : e.truthy = true
    · simp only [ht, if_true, ite_true]
      obtain ⟨d, hd, hks⟩ := h
      refine ⟨d, ?_, hks⟩
      rw [dGet_dSet_ne top "enhanced_insights" s e hs]
      exact hd
    · simp only [Bool.not_eq_true] at ht
      simp only [ht, Bool.false_eq_true, if_false, ite_false]
      exact h

theorem buildAnalysis_complete (env : Env) (now : Int) (o r : String)
    (tree : TreeAnalysis) (dd : DepsAnalysis) (dq : QualityRecord) (da : Activity)
    (sec : SecurityAnalysis) (ei : Option Val)
    (ls : List (String × Nat)) (cs : List Commit) (iss : List Issue)
    (ps : List Pull) (rs : List Val)
    (hL : env.languages = Fetched.ok ls) (hC : env.commits = Fetched.ok cs)
    (hI : env.issues = Fetched.ok iss) (hP : env.pulls = Fetched.ok ps)
    (hR : env.releases = Fetched.ok rs)
    (hsum : ls = [] ∨ (ls.map Prod.snd).sum ≠ 0) :
    ∃ rep, buildAnalysis env now o r tree dd dq da sec ei = Except.ok rep ∧
      ReportComplete rep := by
  obtain ⟨md, hmd, hmdk⟩ := metadata_ok env.repo_info ls env.contributors hsum
  obtain ⟨act, hact, hactk⟩ := activityDeep_keysPre cs iss ps rs da now
  unfold buildAnalysis
  rw [hL, hC, hI, hP, hR, hmd, hact]
  refine ⟨_, rfl, _, rfl, ?_, ?_, ?_, ?_, ?_, ?_⟩
  · refine sectOK_enh ei _ _ _ (by decide) ⟨md, rfl, ?_⟩
    intro k hk
    rw [hmdk]
    exact hk
  · exact sectOK_enh ei _ _ _ (by decide) ⟨_, rfl, fun k hk =>
      (archDeep_keysPre env.package_json env.requirements_txt tree
        dd).sublist.subset hk⟩
  · exact sectOK_enh ei _ _ _ (by decide) ⟨_, rfl, fun k hk =>
      (qualityDeep_keysPre env.workflows dq).sublist.subset hk⟩
  · refine sectOK_enh ei _ _ _ (by decide) ⟨_, rfl, ?_⟩
    intro k hk
    rw [doc_alKeys]
    exact hk
  · exact sectOK_enh ei _ _ _ (by decide) ⟨act, rfl, fun k hk =>
      hactk.sublist.subset hk⟩
  · exact sectOK_enh ei _ _ _ (by decide) ⟨_, rfl, fun k hk =>
      (debtDeep_keysPre env.repo_info tree dd dq sec now).sublist.subset hk⟩

theorem exc_bind_ok {α β : Type} (a : α) (f : α → Except PyErr β) :
    (Except.ok a >>= f) = f a := rfl

theorem exc_bind_err {α β : Type} (e : PyErr) (f : α → Except PyErr β) :
    ((Except.error e : Except PyErr α) >>= f) = Except.error e := rfl

theorem analyzeFresh_ok (env : Env) (st : RepositoryCache) (now : Int) (o r : String)
    (ls : List (String × Nat)) (cs : List Commit) (iss : List Issue)
    (ps : List Pull) (rs : List Val)
    (hL : env.languages = Fetched.ok ls) (hC : env.commits = Fetched.ok cs)
    (hI : env.issues = Fetched.ok iss) (hP : env.pulls = Fetched.ok ps)
    (hR : env.releases = Fetched.ok rs)
    (hsum : ls = [] ∨ (ls.map Prod.snd).sum ≠ 0) :
    ∃ rep st' n, analyzeFresh env st now o r = Except.ok (rep, st', n) ∧
      ReportComplete rep := by
  obtain ⟨a, ha⟩ := commit_activity_ok cs iss ps
  rw [← hC, ← hI, ← hP] at ha
  obtain ⟨rep, hrep, hcomp⟩ := buildAnalysis_complete env now o r
    (analyze_file_tree env.tree_resp)
    (analyze_dependencies_detailed env.package_json env.requirements_txt
      env.manifest_probe)
    (analyze_code_quality_detailed env.bp_probe (analyze_file_tree env.tree_resp))
    a
    (analyze_security_posture
      (analyze_dependencies_detailed env.package_json env.requirements_txt
        env.manifest_probe)
      (analyze_code_quality_detailed env.bp_probe (analyze_file_tree env.tree_resp)))
    (match env.enhanced with
     | Except.ok v => some v
     | Except.error _ => Option.none)
    ls cs iss ps rs hL hC hI hP hR hsum
  simp only [analyzeFresh]
  rw [ha]
  simp only [exc_bind_ok]
  rw [hrep]
  simp only [exc_bind_ok]
  exact ⟨_, _, _, rfl, hcomp⟩

theorem mapError_ok {α : Type} (f : PyErr → PyErr) (a : α) :
    Except.mapError f (Except.ok a : Except PyErr α) = Except.ok a := rfl

theorem mapError_err {α : Type} (f : PyErr → PyErr) (e : PyErr) :
    Except.mapError f (Except.error e : Except PyErr α) = Except.error (f e) := rfl

theorem analyze_error_on_bad_url (env : Env) (st : RepositoryCache) (now : Int)
    (url : String) (e : PyErr) (h : parse_repo_url url = Except.error e) :
    analyze_repository env st now url =
      Except.error ("Repository analysis failed: " ++ e) := by
  unfold analyze_repository
  rw [h]
  rfl

theorem analyze_ok (env : Env) (st : RepositoryCache) (now : Int) (url : String)
    (o r : String) (ls : List (String × Nat)) (cs : List Commit) (iss : List Issue)
    (ps : List Pull) (rs : List Val)
    (hparse : parse_repo_url url = Except.ok (o, r))
    (hL : env.languages = Fetched.ok ls) (hC : env.commits = Fetched.ok cs)
    (hI : env.issues = Fetched.ok iss) (hP : env.pulls = Fetched.ok ps)
    (hR : env.releases = Fetched.ok rs)
    (hsum : ls = [] ∨ (ls.map Prod.snd).sum ≠ 0) :
    ∃ rep st' n, analyze_repository env st now url = Except.ok (rep, st', n) := by
  unfold analyze_repository
  rw [hparse]
  simp only [exc_bind_ok]
  rcases hcg : get_cached_analysis st now o r with ⟨cached, st1⟩
  cases cached with
  | none =>
    obtain ⟨rep, st', n, hfr, _⟩ := analyzeFresh_ok env st1 now o r ls cs iss ps rs
      hL hC hI hP hR hsum
    rw [hfr]
    exact ⟨rep, st', n, rfl⟩
  | some v =>
    by_cases ht : v.truthy = true
    · simp only [ht, if_true, ite_true]
      exact ⟨v, st1, 0, rfl⟩
    · simp only [Bool.not_eq_true] at ht
      simp only [ht, Bool.false_eq_true, if_false, ite_false]
      obtain ⟨rep, st', n, hfr, _⟩ := analyzeFresh_ok env st1 now o r ls cs iss ps rs
        hL hC hI hP hR hsum
      rw [hfr]
      exact ⟨rep, st', n, rfl⟩

theorem analyze_hit (env : Env) (st : RepositoryCache) (now : Int) (url : String)
    (o r : String) (v : Val) (st1 : RepositoryCache)
    (hparse : parse_repo_url url = Except.ok (o, r))
    (hg : get_cached_analysis st now o r = (some v, st1))
    (ht : v.truthy = true) :
    analyze_repository env st now url = Except.ok (v, st1, 0) := by
  unfold analyze_repository
  rw [hparse]
  simp only [exc_bind_ok]
  rw [hg]
  simp only [ht, if_true, ite_true]
  rfl

theorem exc_bind_eq_ok {α β : Type} (x : Except PyErr α) (f : α → Except PyErr β)
    (b : β) (h : (x >>= f) = Except.ok b) :
    ∃ a, x = Except.ok a ∧ f a = Except.ok b := by
  cases x with
  | error e => rw [exc_bind_err] at h; cases h
  | ok a => rw [exc_bind_ok] at h; exact ⟨a, rfl, h⟩

theorem mapError_eq_ok {α : Type} (f : PyErr → PyErr) (x : Except PyErr α) (a : α)
    (h : Except.mapError f x = Except.ok a) : x = Except.ok a := by
  cases x with
  | error e => rw [mapError_err] at h; cases h
  | ok b => rw [mapError_ok] at h; exact h

theorem pure_eq_ok {α : Type} (a b : α) (h : (pure a : Except PyErr α) = Except.ok b) :
    a = b := Except.ok.inj h

theorem alSet_ne_nil {α : Type} (d : List (String × α)) (k : String) (v : α) :
    alSet d k v ≠ [] := by
  cases d with
  | nil => simp [alSet]
  | cons p rest => simp only [alSet]; split <;> simp

theorem truthy_dict_ne_nil (xs : Dict) (h : xs ≠ []) : (Val.dict xs).truthy = true := by
  cases xs with
  | nil => exact absurd rfl h
  | cons a l => rfl

theorem buildAnalysis_truthy (env : Env) (now : Int) (o r : String)
    (tree : TreeAnalysis) (dd : DepsAnalysis) (dq : QualityRecord)
    (da : Activity) (sec : SecurityAnalysis) (ei : Option Val) (rep : Val)
    (h : buildAnalysis env now o r tree dd dq da sec ei = Except.ok rep) :
    rep.truthy = true := by
  simp only [buildAnalysis] at h
  obtain ⟨md, hmd, h⟩ := exc_bind_eq_ok _ _ _ h
  obtain ⟨act, hact, h⟩ := exc_bind_eq_ok _ _ _ h
  have hv := pure_eq_ok _ _ h
  rw [← hv]
  cases ei with
  | none => rfl
  | some e =>
    refine truthy_dict_ne_nil _ ?_
    dsimp only
    split
    · exact alSet_ne_nil _ _ _
    · simp

theorem analyzeFresh_shape (env : Env) (st : RepositoryCache) (now : Int)
    (o r : String) (rep : Val) (st' : RepositoryCache) (n : Nat)
    (h : analyzeFresh env st now o r = Except.ok (rep, st', n)) :
    st' = cache_repository_analysis st now o r rep ∧ n = apiCallCount env ∧
      rep.truthy = true := by
  simp only [analyzeFresh] at h
  obtain ⟨da, hda, h⟩ := exc_bind_eq_ok _ _ _ h
  obtain ⟨a, hb, h⟩ := exc_bind_eq_ok _ _ _ h
  have hv := pure_eq_ok _ _ h
  obtain ⟨h1, h2, h3⟩ : a = rep ∧ cache_repository_analysis st now o r a = st' ∧
      apiCallCount env = n := by
    refine ⟨congrArg Prod.fst hv, ?_, ?_⟩
    · exact congrArg Prod.fst (congrArg Prod.snd hv)
    · exact congrArg Prod.snd (congrArg Prod.snd hv)
  subst h1
  exact ⟨h2.symm, h3.symm, buildAnalysis_truthy _ _ _ _ _ _ _ _ _ _ _ hb⟩

theorem cache_hit_after_store (st : RepositoryCache) (t0 t1 : Int) (o r : String)
    (rep : Val) (h : t1 < t0 + 1800) :
    ∃ st2, get_cached_analysis (cache_repository_analysis st t0 o r rep) t1 o r =
      (some rep, st2) := by
  unfold get_cached_analysis cache_repository_analysis RepositoryCache.set
    RepositoryCache.get
  dsimp only
  rw [alGet_alSet_self]
  dsimp only
  rw [if_neg (show ¬(1800 : Int) = 0 by norm_num)]
  rw [if_pos h]
  exact ⟨_, rfl⟩

/-- C1 counterexample: with the languages fetch degraded to an error dict, `analyze_repository` on the well-formed locator "a/b" raises the wrapped `TypeError` coming from `_process_metadata`'s `sum(languages.values())`. -/
theorem C1_cx :
    analyze_repository envLang (RepositoryCache.init 100 900) 0 "a/b" =
      Except.error "Repository analysis failed: TypeError: unsupported operand type(s) for +: 'int' and 'str'" := by
  with_unfolding_all rfl

/-- C1: refutation of the fail-fast-only claim.  The locator "a/b" parses to the identity ("a", "b"), yet `analyze_repository` on an environment whose languages endpoint returned a degraded error dict raises (returns `.error`) instead of returning a report: a provider error escapes the call, so parse failure is not the only failure mode. -/
theorem C1_test :
    parse_repo_url "a/b" = Except.ok ("a", "b") ∧
    ∀ rep st' n, analyze_repository envLang (RepositoryCache.init 100 900) 0 "a/b" ≠
      Except.ok (rep, st', n) := by
  have h : analyze_repository envLang (RepositoryCache.init 100 900) 0 "a/b" =
      Except.error "Repository analysis failed: TypeError: unsupported operand type(s) for +: 'int' and 'str'" := by
    with_unfolding_all rfl
  refine ⟨by with_unfolding_all rfl, fun rep st' n hok => ?_⟩
  rw [h] at hok
  cases hok

/-- C1 amended: a malformed locator raises the wrapped `ValueError` immediately, and whenever the five list-typed endpoints (languages, commits, issues, pulls, releases) return well-typed payloads - with the languages byte counts not summing to zero on a nonempty payload, which would raise `ZeroDivisionError` in `_process_metadata` - the call returns a report; the remaining collaborators (tree, readme, manifests, enhanced insights) may degrade arbitrarily without making the call raise. -/
theorem C1_amended (env : Env) (st : RepositoryCache) (now : Int) (url : String) :
    (∀ e, parse_repo_url url = Except.error e →
      analyze_repository env st now url =
        Except.error ("Repository analysis failed: " ++ e)) ∧
    (∀ o r ls cs iss ps rs, parse_repo_url url = Except.ok (o, r) →
      env.languages = Fetched.ok ls → env.commits = Fetched.ok cs →
      env.issues = Fetched.ok iss → env.pulls = Fetched.ok ps →
      env.releases = Fetched.ok rs →
      (ls = [] ∨ (ls.map Prod.snd).sum ≠ 0) →
      ∃ rep st' n, analyze_repository env st now url = Except.ok (rep, st', n)) :=
  ⟨fun e he => analyze_error_on_bad_url env st now url e he,
   fun o r ls cs iss ps rs hp hL hC hI hP hR hsum =>
     analyze_ok env st now url o r ls cs iss ps rs hp hL hC hI hP hR hsum⟩

/-- C2: refutation of the every-valid-input completeness claim.  The locator "a/b" parses, every endpoint of `envZero` is well-typed, yet `analyze_repository` returns no report at all: the zero-byte languages payload makes `_process_metadata` raise `ZeroDivisionError`, which escapes the call wrapped - so on this valid input there is no returned report, complete or otherwise. -/
theorem C2_test :
    parse_repo_url "a/b" = Except.ok ("a", "b") ∧
    ∀ rep st' n, analyze_repository envZero (RepositoryCache.init 100 900) 0 "a/b" ≠
      Except.ok (rep, st', n) := by
  have h : analyze_repository envZero (RepositoryCache.init 100 900) 0 "a/b" =
      Except.error "Repository analysis failed: ZeroDivisionError: division by zero" := by
    with_unfolding_all rfl
  refine ⟨by with_unfolding_all rfl, fun rep st' n hok => ?_⟩
  rw [h] at hok
  cases hok

/-- C2 counterexample: on the parsing locator "a/b" with a well-typed languages payload of zero total bytes, the call raises the wrapped `ZeroDivisionError` of `_process_metadata`'s `bytes_count / total_bytes` instead of returning a report. -/
theorem C2_cx :
    analyze_repository envZero (RepositoryCache.init 100 900) 0 "a/b" =
      Except.error "Repository analysis failed: ZeroDivisionError: division by zero" := by
  with_unfolding_all rfl

/-- C2 amended: for every valid locator and cache-missing state, if the list-typed endpoints are well-typed and a nonempty languages payload has nonzero total bytes, then `analyze_repository` returns a report carrying all seven fixed sections, each with its full fixed key set (`ReportComplete`) - even when the tree fetch, readme, manifests, branch-protection probe and enhanced stage are all degraded. -/
theorem C2_amended (env : Env) (st : RepositoryCache) (now : Int) (url o r : String)
    (ls : List (String × Nat)) (cs : List Commit) (iss : List Issue)
    (ps : List Pull) (rs : List Val)
    (hparse : parse_repo_url url = Except.ok (o, r))
    (hmiss : (get_cached_analysis st now o r).1 = Option.none)
    (hL : env.languages = Fetched.ok ls) (hC : env.commits = Fetched.ok cs)
    (hI : env.issues = Fetched.ok iss) (hP : env.pulls = Fetched.ok ps)
    (hR : env.releases = Fetched.ok rs)
    (hsum : ls = [] ∨ (ls.map Prod.snd).sum ≠ 0) :
    ∃ rep st' n, analyze_repository env st now url = Except.ok (rep, st', n) ∧
      ReportComplete rep := by
  obtain ⟨rep, st', n, hfr, hcomp⟩ := analyzeFresh_ok env
    (get_cached_analysis st now o r).2 now o r ls cs iss ps rs hL hC hI hP hR hsum
  refine ⟨rep, st', n, ?_, hcomp⟩
  unfold analyze_repository
  rw [hparse]
  simp only [exc_bind_ok]
  rw [hmiss]
  rw [hfr]
  rfl

/-- C2 witness: the concrete environment `env0` (tree fetch timed out, readme/manifests absent, enhanced stage raising, 1000 bytes of Python) still yields a complete report. -/
theorem C2_test_witness :
    ∃ rep st' n, analyze_repository env0 (RepositoryCache.init 100 900) 0 "o/r" =
      Except.ok (rep, st', n) ∧ ReportComplete rep :=
  C2_amended env0 (RepositoryCache.init 100 900) 0 "o/r" "o" "r" [("Python", 1000)]
    [] [] [] [] (by with_unfolding_all rfl) rfl rfl rfl rfl rfl rfl
    (Or.inr (by decide))

/-- C3: idempotence under caching.  If a first call on a cache-missing state succeeds, any second call within 1800 time units of the first returns the identical report value with zero provider calls, regardless of the second call's environment. -/
theorem C3_test (env1 env2 : Env) (st : RepositoryCache) (now1 now2 : Int)
    (url o r : String) (rep : Val) (st1 : RepositoryCache) (n : Nat)
    (hparse : parse_repo_url url = Except.ok (o, r))
    (hmiss : (get_cached_analysis st now1 o r).1 = Option.none)
    (h1 : analyze_repository env1 st now1 url = Except.ok (rep, st1, n))
    (hwin : now2 < now1 + 1800) :
    ∃ st2, analyze_repository env2 st1 now2 url = Except.ok (rep, st2, 0) := by
  unfold analyze_repository at h1
  rw [hparse] at h1
  simp only [exc_bind_ok] at h1
  rw [hmiss] at h1
  have h1' : Except.mapError (fun e => "Repository analysis failed: " ++ e)
      (analyzeFresh env1 (get_cached_analysis st now1 o r).2 now1 o r) =
      Except.ok (rep, st1, n) := h1
  have hfr := mapError_eq_ok _ _ _ h1'
  obtain ⟨hst1, hn, htr⟩ := analyzeFresh_shape env1 _ now1 o r rep st1 n hfr
  obtain ⟨st2, hget⟩ := cache_hit_after_store (get_cached_analysis st now1 o r).2
    now1 now2 o r rep hwin
  refine ⟨st2, analyze_hit env2 st1 now2 url o r rep st2 hparse ?_ htr⟩
  rw [hst1]
  exact hget

/-- C3 witness: a concrete first call at time 0 followed by a second call at time 5 returning the same report with 0 provider calls. -/
theorem C3_test_witness :
    ∃ rep st1 n st2,
      analyze_repository env0 (RepositoryCache.init 100 900) 0 "o/r" =
        Except.ok (rep, st1, n) ∧
      analyze_repository env0 st1 5 "o/r" = Except.ok (rep, st2, 0) := by
  obtain ⟨rep, st1, n, h1⟩ := analyze_ok env0 (RepositoryCache.init 100 900) 0 "o/r"
    "o" "r" [("Python", 1000)] [] [] [] [] (by with_unfolding_all rfl) rfl rfl rfl rfl rfl
    (Or.inr (by decide))
  obtain ⟨st2, h2⟩ := C3_test env0 env0 (RepositoryCache.init 100 900) 0 5 "o/r"
    "o" "r" rep st1 n (by with_unfolding_all rfl) rfl h1 (by norm_num)
  exact ⟨rep, st1, n, st2, h1, h2⟩

/-- C9: refutation of the boundary reading of the coverage tiers.  A tree with 20 files and 1 test file has test-file ratio exactly 5 percent, and the code labels it Minimal, not Low - so the boundary value 5 percent falls in the lower tier, contradicting the spec's `Low 5-15%` / `Minimal <5%` partition. -/
theorem C9_test :
    (analyze_code_quality_detailed ProbeOutcome.errResp c9Tree).test_file_ratio = 5 ∧
    (analyze_code_quality_detailed ProbeOutcome.errResp c9Tree).test_coverage ≠
      "Low (5-15% test files)" ∧
    (analyze_code_quality_detailed ProbeOutcome.errResp c9Tree).test_coverage =
      "Minimal (<5% test files)" := by
  refine ⟨?_, ?_, ?_⟩ <;> with_unfolding_all decide
